import Mathlib

set_option maxRecDepth 8000

/- Shallow embedding of src/scripts/migrate-users.js.

   The script consolidates the user documents of the two partitioned
   collections instances/instance1/users and instances/instance2/users
   into the unified collection users.  Firestore is modelled as an
   association list from document ids to document data; the fallible
   remote operations (collection enumeration, per-key existence lookup,
   batch preparation, batch commit) are driven by boolean oracles so
   that every failure scenario of the script is expressible. -/

/-- Document ids of user records. -/
abbrev Key := Nat

/-- Data stored for one user document in the unified collection.
    The payload abstracts the original fields; instanceField models the
    instance provenance tag the script stamps (line 86), migratedAt the
    migration timestamp (line 89). -/
structure UserData where
  payload : Nat
  instanceField : Option String
  migratedAt : Bool
deriving DecidableEq, Repr

/-- The unified destination collection: an association list keyed by
    document id, in enumeration order. -/
abbrev Dest := List (Key × UserData)

/-- Point lookup of a document by id. -/
def lookupDest (d : Dest) (k : Key) : Option UserData :=
  match d with
  | [] => none
  | (k', v) :: rest => if k' = k then some v else lookupDest rest k

/-- Overwriting write of one document (Firestore set semantics). -/
def setDest (d : Dest) (k : Key) (v : UserData) : Dest :=
  match d with
  | [] => [(k, v)]
  | (k', v') :: rest => if k' = k then (k', v) :: rest else (k', v') :: setDest rest k v

/-- Sequentially apply a list of writes to the destination. -/
def writeAll (d : Dest) (ws : List (Key × UserData)) : Dest :=
  ws.foldl (fun acc kv => setDest acc kv.1 kv.2) d

/-- Oracles deciding which of the script's remote operations fail:
    lookupFails models the per-key existence get at line 78 throwing,
    prepFails models the try block at lines 91-109 throwing while a
    record is prepared, commitFails models batch.commit at line 121
    rejecting (per instance name and batch index), and enumFails models
    a collection-wide get (lines 21, 34, 38, 136) throwing. -/
structure Oracles where
  lookupFails : Key → Bool
  prepFails : Key → Bool
  commitFails : String → Nat → Bool
  enumFails : String → Bool

/-- Observable events of a run, in program order: check is a completed
    existence lookup for a key, skip a skip of an already-present key,
    queue the addition of a key to the current batch, commit the commit
    attempt of the batch with the given index. -/
inductive MigEvent where
  | check (k : Key)
  | skip (k : Key)
  | queue (k : Key)
  | commit (i : Nat)
deriving DecidableEq, Repr

/-- State of the per-record loop of migrateInstance (lines 73-110):
    the global counters, the list of filled batches, the batch being
    filled, its operation count, the event trace, and whether an
    uncaught lookup error has aborted the run. -/
structure InstSt where
  migrated : Nat
  skipped : Nat
  errored : Nat
  batches : List (List (Key × UserData))
  currentBatch : List (Key × UserData)
  opCount : Nat
  events : List MigEvent
  aborted : Bool
deriving Repr

/-- The per-record loop of migrateInstance (lines 73-110).  For each
    source document: the existence lookup either throws (aborting, since
    the script has no catch around it), or answers; a present key is
    skipped; otherwise the record is stamped with the instance name and
    appended to the current batch inside a try whose failure counts the
    record errored; a batch reaching 450 operations is pushed and a new
    batch begun. -/
def processDocs (o : Oracles) (dest : Dest) (inst : String) :
    List (Key × Nat) → InstSt → InstSt
  | [], st => st
  | (uid, data) :: rest, st =>
    if st.aborted then st
    else if o.lookupFails uid then { st with aborted := true }
    else
      let st1 := { st with events := st.events ++ [MigEvent.check uid] }
      if (lookupDest dest uid).isSome then
        processDocs o dest inst rest
          { st1 with skipped := st1.skipped + 1,
                     events := st1.events ++ [MigEvent.skip uid] }
      else if o.prepFails uid then
        processDocs o dest inst rest { st1 with errored := st1.errored + 1 }
      else
        let r : Key × UserData :=
          (uid, { payload := data, instanceField := some inst, migratedAt := true })
        let cb := st1.currentBatch ++ [r]
        let st2 := { st1 with events := st1.events ++ [MigEvent.queue uid] }
        if 450 ≤ st2.opCount + 1 then
          processDocs o dest inst rest
            { st2 with batches := st2.batches ++ [cb], currentBatch := [], opCount := 0 }
        else
          processDocs o dest inst rest
            { st2 with currentBatch := cb, opCount := st2.opCount + 1 }

/-- State of the commit loop of migrateInstance (lines 117-128). -/
structure CommitSt where
  dest : Dest
  migrated : Nat
  errored : Nat
  events : List MigEvent
deriving Repr

/-- The commit loop of migrateInstance (lines 117-128).  total is the
    number of batches, oc the value of operationCount after the record
    loop; on success the batch's writes are applied atomically and the
    migrated counter grows by operationCount for the last batch and by
    the 450 batch size otherwise, on failure the errored counter grows
    by the same amount and nothing is written. -/
def commitBatches (cf : Nat → Bool) (total oc : Nat) :
    List (List (Key × UserData)) → Nat → CommitSt → CommitSt
  | [], _, st => st
  | b :: bs, i, st =>
    let w := if i = total - 1 then oc else 450
    if cf i then
      commitBatches cf total oc bs (i + 1)
        { st with errored := st.errored + w,
                  events := st.events ++ [MigEvent.commit i] }
    else
      commitBatches cf total oc bs (i + 1)
        { st with dest := writeAll st.dest b,
                  migrated := st.migrated + w,
                  events := st.events ++ [MigEvent.commit i] }

/-- Result of migrating one instance. -/
structure InstResult where
  dest : Dest
  migrated : Nat
  skipped : Nat
  errored : Nat
  formedBatches : List (List (Key × UserData))
  events : List MigEvent
  aborted : Bool
deriving Repr

/-- The migrateInstance helper (lines 66-129): run the record loop from
    empty batch state; if it aborted (uncaught lookup error) the
    exception propagates and no batch is committed; otherwise push the
    last non-empty batch (lines 113-115) and run the commit loop. -/
def migrateInstance (o : Oracles) (docs : List (Key × Nat)) (inst : String)
    (dest : Dest) (migrated skipped errored : Nat) : InstResult :=
  let st0 : InstSt :=
    { migrated := migrated, skipped := skipped, errored := errored,
      batches := [], currentBatch := [], opCount := 0, events := [], aborted := false }
  let st1 := processDocs o dest inst docs st0
  if st1.aborted then
    { dest := dest, migrated := st1.migrated, skipped := st1.skipped,
      errored := st1.errored, formedBatches := st1.batches, events := st1.events,
      aborted := true }
  else
    let allBatches := if 0 < st1.opCount then st1.batches ++ [st1.currentBatch] else st1.batches
    let cst := commitBatches (o.commitFails inst) allBatches.length st1.opCount allBatches 0
      { dest := dest, migrated := st1.migrated, errored := st1.errored, events := st1.events }
    { dest := cst.dest, migrated := cst.migrated, skipped := st1.skipped,
      errored := cst.errored, formedBatches := allBatches, events := cst.events,
      aborted := false }

/-- Provenance tag used by the verification tally (line 142): the
    instance field of a document, or unknown when unset. -/
def instTag (v : UserData) : String := v.instanceField.getD "unknown"

/-- Increment the tally entry of one tag, inserting it if new
    (the instanceCounts object of lines 140-144). -/
def bumpTally (t : List (String × Nat)) (name : String) : List (String × Nat) :=
  match t with
  | [] => [(name, 1)]
  | (n, c) :: rest => if n = name then (n, c + 1) :: rest else (n, c) :: bumpTally rest name

/-- The per-instance tally of the verification pass (lines 139-144). -/
def computeTally (d : Dest) : List (String × Nat) :=
  d.foldl (fun t kv => bumpTally t (instTag kv.2)) []

/-- Result of one full run of the migration script. -/
structure RunResult where
  dest : Dest
  migrated : Nat
  skipped : Nat
  errored : Nat
  formedBatches1 : List (List (Key × UserData))
  formedBatches2 : List (List (Key × UserData))
  events1 : List MigEvent
  events2 : List MigEvent
  tally : List (String × Nat)
  errorWarning : Bool
  completed : Bool
deriving Repr

/-- The migrateUsers entry point (lines 15-163).  The initial unified
    enumeration (line 21) and the two partition enumerations (lines 34,
    38) happen first inside the single try block, so a failure of any of
    them aborts the whole run; then instance1 and instance2 are migrated
    sequentially with shared counters; then the verification pass
    re-enumerates the destination and tallies it by instance tag; the
    only warning printed is the error-count warning of line 154. -/
def migrateUsers (o : Oracles) (docs1 docs2 : List (Key × Nat)) (dest0 : Dest) : RunResult :=
  if o.enumFails "users" then
    { dest := dest0, migrated := 0, skipped := 0, errored := 0,
      formedBatches1 := [], formedBatches2 := [], events1 := [], events2 := [],
      tally := [], errorWarning := false, completed := false }
  else if o.enumFails "instance1" then
    { dest := dest0, migrated := 0, skipped := 0, errored := 0,
      formedBatches1 := [], formedBatches2 := [], events1 := [], events2 := [],
      tally := [], errorWarning := false, completed := false }
  else if o.enumFails "instance2" then
    { dest := dest0, migrated := 0, skipped := 0, errored := 0,
      formedBatches1 := [], formedBatches2 := [], events1 := [], events2 := [],
      tally := [], errorWarning := false, completed := false }
  else
    let r1 := migrateInstance o docs1 "instance1" dest0 0 0 0
    if r1.aborted then
      { dest := r1.dest, migrated := r1.migrated, skipped := r1.skipped,
        errored := r1.errored, formedBatches1 := r1.formedBatches,
        formedBatches2 := [], events1 := r1.events, events2 := [],
        tally := [], errorWarning := false, completed := false }
    else
      let r2 := migrateInstance o docs2 "instance2" r1.dest r1.migrated r1.skipped r1.errored
      if r2.aborted then
        { dest := r2.dest, migrated := r2.migrated, skipped := r2.skipped,
          errored := r2.errored, formedBatches1 := r1.formedBatches,
          formedBatches2 := r2.formedBatches, events1 := r1.events, events2 := r2.events,
          tally := [], errorWarning := false, completed := false }
      else if o.enumFails "users-final" then
        { dest := r2.dest, migrated := r2.migrated, skipped := r2.skipped,
          errored := r2.errored, formedBatches1 := r1.formedBatches,
          formedBatches2 := r2.formedBatches, events1 := r1.events, events2 := r2.events,
          tally := [], errorWarning := false, completed := false }
      else
        { dest := r2.dest, migrated := r2.migrated, skipped := r2.skipped,
          errored := r2.errored, formedBatches1 := r1.formedBatches,
          formedBatches2 := r2.formedBatches, events1 := r1.events, events2 := r2.events,
          tally := computeTally r2.dest, errorWarning := decide (0 < r2.errored),
          completed := true }

/-- Presence of a source document's key in a destination snapshot. -/
def presentIn (dest : Dest) (kv : Key × Nat) : Bool :=
  (lookupDest dest kv.1).isSome

/-- Number of source documents of a partition skipped because their key
    is already present in the destination snapshot. -/
def skippedOf (dest : Dest) (docs : List (Key × Nat)) : Nat :=
  (docs.filter (fun kv => presentIn dest kv)).length

/-- Number of source documents whose batch preparation fails. -/
def prepErrsOf (o : Oracles) (dest : Dest) (docs : List (Key × Nat)) : Nat :=
  (docs.filter (fun kv => !presentIn dest kv && o.prepFails kv.1)).length

/-- The stamped records queued for writing, in source order: the absent
    documents whose preparation succeeds, tagged with the instance. -/
def queuedRecs (o : Oracles) (dest : Dest) (inst : String) (docs : List (Key × Nat)) :
    List (Key × UserData) :=
  (docs.filter (fun kv => !presentIn dest kv && !o.prepFails kv.1)).map
    (fun kv => (kv.1, { payload := kv.2, instanceField := some inst, migratedAt := true }))

/-- Events contributed by one source document of the record loop. -/
def evOne (o : Oracles) (dest : Dest) (kv : Key × Nat) : List MigEvent :=
  if presentIn dest kv then [MigEvent.check kv.1, MigEvent.skip kv.1]
  else if o.prepFails kv.1 then [MigEvent.check kv.1]
  else [MigEvent.check kv.1, MigEvent.queue kv.1]

/-- Event trace of the record loop of one partition. -/
def eventsOf (o : Oracles) (dest : Dest) (docs : List (Key × Nat)) : List MigEvent :=
  (docs.map (evOne o dest)).flatten

/-- Batch accumulation as a pure function: append each record to the
    current batch, flushing it to the batch list when it reaches 450. -/
def accumulate (c : List (Key × UserData)) (B : List (List (Key × UserData))) :
    List (Key × UserData) → List (List (Key × UserData)) × List (Key × UserData)
  | [] => (B, c)
  | r :: rs =>
    let c2 := c ++ [r]
    if 450 ≤ c2.length then accumulate [] (B ++ [c2]) rs
    else accumulate c2 B rs

/-- Sum of the per-batch amounts the commit loop adds to the counters:
    operationCount for the batch of index total - 1 and 450 otherwise. -/
def weightSum (total oc : Nat) : Nat → Nat → Nat
  | _, 0 => 0
  | i, n + 1 => (if i = total - 1 then oc else 450) + weightSum total oc (i + 1) n

/-- Recognizer of commit events. -/
def isCommitEv : MigEvent → Bool
  | MigEvent.commit _ => true
  | _ => false

/-- Recognizer of skip events. -/
def isSkipEv : MigEvent → Bool
  | MigEvent.skip _ => true
  | _ => false

/-- Oracle assignment on which every remote operation succeeds. -/
def oGood : Oracles :=
  { lookupFails := fun _ => false, prepFails := fun _ => false,
    commitFails := fun _ _ => false, enumFails := fun _ => false }

/-- Count of destination documents carrying a given instance tag. -/
def countTag (d : Dest) (name : String) : Nat :=
  (d.filter (fun kv => kv.2.instanceField == some name)).length

/-- Amount the commit loop adds to a counter over a full run of batches
    (value of the summed ternary of lines 122 and 126 for n queued
    records): because operationCount is 0 whenever the final batch is
    exactly full, the final batch contributes n mod 450 instead of its
    true size. -/
def buggyCount (n : Nat) : Nat :=
  if n = 0 then 0 else 450 * ((n + 449) / 450 - 1) + n % 450

/-- Oracle assignment on which only the existence lookup of key 1
    throws. -/
def oLookupFailK1 : Oracles :=
  { lookupFails := fun k => k == 1, prepFails := fun _ => false,
    commitFails := fun _ _ => false, enumFails := fun _ => false }

/-- Oracle assignment on which only the enumeration of instance1
    throws. -/
def oEnumFail1 : Oracles :=
  { lookupFails := fun _ => false, prepFails := fun _ => false,
    commitFails := fun _ _ => false, enumFails := fun s => s == "instance1" }

/-- Oracle assignment on which every batch commit of instance1 fails. -/
def oCommitFail1 : Oracles :=
  { lookupFails := fun _ => false, prepFails := fun _ => false,
    commitFails := fun nm _ => nm == "instance1", enumFails := fun _ => false }

/-- A partition of 450 records with ids 0..449, none in the destination
    when it is empty. -/
def docs450 : List (Key × Nat) := (List.range 450).map (fun i => (i, i))

/-- A partition of 451 records with ids 0..450. -/
def docs451 : List (Key × Nat) := (List.range 451).map (fun i => (i, i))

/-- A partition of 460 records with ids 0..459. -/
def docs460 : List (Key × Nat) := (List.range 460).map (fun i => (i, i))

/-- Value recorded in an association tally for one tag (0 if the tag is
    absent), used to read the verification tally of lines 140-144. -/
def tallyCount (t : List (String × Nat)) (name : String) : Nat :=
  match t with
  | [] => 0
  | (n, c) :: rest => if n = name then c else tallyCount rest name

example : (migrateUsers oGood [(1, 10), (2, 20)] [(2, 5), (3, 7)] [(1, ⟨0, none, false⟩)]).migrated = 2 := by decide

example : (migrateUsers oGood [(1, 10), (2, 20)] [(2, 5), (3, 7)] [(1, ⟨0, none, false⟩)]).skipped = 2 := by decide

example : lookupDest (migrateUsers oGood [(1, 10), (2, 20)] [(2, 5), (3, 7)] [(1, ⟨0, none, false⟩)]).dest 3 = some ⟨7, some "instance2", true⟩ := by decide

attribute [ext] InstSt

attribute [ext] CommitSt

theorem lookupDest_setDest_self (d : Dest) (k : Key) (v : UserData) :
    lookupDest (setDest d k v) k = some v := by
  induction d with
  | nil => simp [setDest, lookupDest]
  | cons kv rest ih =>
    obtain ⟨k', v'⟩ := kv
    simp only [setDest]
    by_cases h : k' = k
    · simp [lookupDest, h]
    · simp [lookupDest, h, ih]

theorem lookupDest_setDest_ne (d : Dest) (k k2 : Key) (v : UserData) (h : k ≠ k2) :
    lookupDest (setDest d k v) k2 = lookupDest d k2 := by
  induction d with
  | nil => simp [setDest, lookupDest, h]
  | cons kv rest ih =>
    obtain ⟨k', v'⟩ := kv
    simp only [setDest]
    by_cases hk : k' = k
    · subst hk
      simp [lookupDest, h]
    · simp [hk, lookupDest, ih]

theorem lookupDest_append_of_some (d1 d2 : Dest) (k : Key) (v : UserData)
    (h : lookupDest d1 k = some v) : lookupDest (d1 ++ d2) k = some v := by
  induction d1 with
  | nil => simp [lookupDest] at h
  | cons kv rest ih =>
    obtain ⟨k', v'⟩ := kv
    simp only [lookupDest] at h ⊢
    by_cases hk : k' = k
    · simpa [hk] using h
    · simp only [hk, if_false] at h ⊢
      exact ih h

theorem lookupDest_append_of_none (d1 d2 : Dest) (k : Key)
    (h : lookupDest d1 k = none) : lookupDest (d1 ++ d2) k = lookupDest d2 k := by
  induction d1 with
  | nil => simp
  | cons kv rest ih =>
    obtain ⟨k', v'⟩ := kv
    simp only [lookupDest] at h ⊢
    by_cases hk : k' = k
    · simp [hk] at h
    · simp only [hk, if_false] at h ⊢
      exact ih h

theorem setDest_absent (d : Dest) (k : Key) (v : UserData)
    (h : lookupDest d k = none) : setDest d k v = d ++ [(k, v)] := by
  induction d with
  | nil => simp [setDest]
  | cons kv rest ih =>
    obtain ⟨k', v'⟩ := kv
    simp only [lookupDest] at h
    by_cases hk : k' = k
    · simp [hk] at h
    · simp only [hk, if_false] at h
      simp [setDest, hk, ih h]

theorem writeAll_nil (d : Dest) : writeAll d [] = d := rfl

theorem writeAll_cons (d : Dest) (kv : Key × UserData) (ws : List (Key × UserData)) :
    writeAll d (kv :: ws) = writeAll (setDest d kv.1 kv.2) ws := rfl

theorem writeAll_append (d : Dest) (ws1 ws2 : List (Key × UserData)) :
    writeAll d (ws1 ++ ws2) = writeAll (writeAll d ws1) ws2 := by
  simp [writeAll, List.foldl_append]

theorem lookupDest_writeAll_not_mem (d : Dest) (ws : List (Key × UserData)) (k : Key)
    (h : k ∉ ws.map Prod.fst) : lookupDest (writeAll d ws) k = lookupDest d k := by
  induction ws generalizing d with
  | nil => rfl
  | cons kv rest ih =>
    simp only [List.map_cons, List.mem_cons, not_or] at h
    rw [writeAll_cons, ih _ h.2, lookupDest_setDest_ne]
    exact fun hk => h.1 hk.symm

theorem lookupDest_writeAll_isSome_mono (d : Dest) (ws : List (Key × UserData)) (k : Key)
    (h : (lookupDest d k).isSome) : (lookupDest (writeAll d ws) k).isSome := by
  induction ws generalizing d with
  | nil => exact h
  | cons kv rest ih =>
    rw [writeAll_cons]
    apply ih
    by_cases hk : kv.1 = k
    · subst hk
      rw [lookupDest_setDest_self]
      rfl
    · rw [lookupDest_setDest_ne _ _ _ _ hk]
      exact h

theorem lookupDest_writeAll_isSome_of_mem (d : Dest) (ws : List (Key × UserData)) (k : Key)
    (h : k ∈ ws.map Prod.fst) : (lookupDest (writeAll d ws) k).isSome := by
  induction ws generalizing d with
  | nil => simp at h
  | cons kv rest ih =>
    rw [writeAll_cons]
    simp only [List.map_cons, List.mem_cons] at h
    rcases h with h | h
    · apply lookupDest_writeAll_isSome_mono
      subst h
      rw [lookupDest_setDest_self]
      rfl
    · exact ih _ h

theorem writeAll_fresh (ws : List (Key × UserData)) (d : Dest)
    (h : ∀ kv ∈ ws, lookupDest d kv.1 = none)
    (hnd : (ws.map Prod.fst).Nodup) : writeAll d ws = d ++ ws := by
  induction ws generalizing d with
  | nil => simp [writeAll]
  | cons kv rest ih =>
    obtain ⟨k, v⟩ := kv
    simp only [List.map_cons, List.nodup_cons] at hnd
    rw [writeAll_cons, setDest_absent _ _ _ (h _ (by simp))]
    rw [ih (d ++ [(k, v)])]
    · simp
    · intro kv2 hkv2
      rw [lookupDest_append_of_none _ _ _ (h _ (List.mem_cons_of_mem _ hkv2))]
      have hne : k ≠ kv2.1 := by
        intro hh
        exact hnd.1 (hh ▸ (List.mem_map_of_mem Prod.fst hkv2))
      simp [lookupDest, hne]
    · exact hnd.2

theorem lookupDest_mem_nodup (ws : List (Key × UserData)) (k : Key) (v : UserData)
    (hm : (k, v) ∈ ws) (hnd : (ws.map Prod.fst).Nodup) : lookupDest ws k = some v := by
  induction ws with
  | nil => simp at hm
  | cons kv rest ih =>
    obtain ⟨k', v'⟩ := kv
    simp only [List.map_cons, List.nodup_cons] at hnd
    rcases List.mem_cons.mp hm with h | h
    · obtain ⟨h1, h2⟩ := Prod.mk.injEq .. ▸ h
      simp [lookupDest, h1.symm, h2]
    · have hne : k' ≠ k := by
        intro hh
        exact hnd.1 (hh ▸ (List.mem_map_of_mem Prod.fst h))
      simp only [lookupDest, hne, if_false]
      exact ih h hnd.2

theorem accumulate_spec (rs : List (Key × UserData)) :
    ∀ (c : List (Key × UserData)) (B : List (List (Key × UserData))), c.length < 450 →
    ∃ D, (accumulate c B rs).1 = B ++ D ∧
      (∀ b ∈ D, b.length = 450) ∧
      D.flatten ++ (accumulate c B rs).2 = c ++ rs ∧
      (accumulate c B rs).2.length = (c.length + rs.length) % 450 ∧
      D.length = (c.length + rs.length) / 450 := by
  induction rs with
  | nil =>
    intro c B hc
    refine ⟨[], by simp [accumulate], by simp, by simp [accumulate], ?_, ?_⟩
    · simp only [accumulate, List.length_nil, Nat.add_zero]
      exact (Nat.mod_eq_of_lt hc).symm
    · simp only [accumulate, List.length_nil, Nat.add_zero]
      exact (Nat.div_eq_of_lt hc).symm
  | cons r rs ih =>
    intro c B hc
    by_cases h : 450 ≤ (c ++ [r]).length
    · have hceq : c.length = 449 := by
        simp only [List.length_append, List.length_singleton] at h
        omega
      obtain ⟨D, h1, h2, h3, h4, h5⟩ := ih [] (B ++ [c ++ [r]]) (by simp)
      refine ⟨(c ++ [r]) :: D, ?_, ?_, ?_, ?_, ?_⟩
      · simp only [accumulate, if_pos h]
        rw [h1]
        simp
      · intro b hb
        rcases List.mem_cons.mp hb with hb | hb
        · subst hb
          simp [hceq]
        · exact h2 b hb
      · simp only [accumulate, if_pos h, List.flatten_cons]
        rw [List.append_assoc, h3]
        simp
      · simp only [accumulate, if_pos h]
        rw [h4]
        simp only [List.length_nil, List.length_cons]
        omega
      · simp only [accumulate, if_pos h, List.length_cons]
        rw [h5]
        simp only [List.length_nil, List.length_cons]
        omega
    · have hlt : (c ++ [r]).length < 450 := by omega
      obtain ⟨D, h1, h2, h3, h4, h5⟩ := ih (c ++ [r]) B hlt
      refine ⟨D, ?_, h2, ?_, ?_, ?_⟩
      · simp only [accumulate, if_neg h]
        exact h1
      · simp only [accumulate, if_neg h]
        rw [h3]
        simp
      · simp only [accumulate, if_neg h]
        rw [h4]
        simp only [List.length_append, List.length_singleton, List.length_cons,
          List.length_nil]
        omega
      · rw [h5]
        simp only [List.length_append, List.length_singleton, List.length_cons,
          List.length_nil]
        omega

theorem processDocs_aborted (o : Oracles) (dest : Dest) (inst : String)
    (docs : List (Key × Nat)) :
    ∀ st : InstSt, (processDocs o dest inst docs st).aborted =
      (st.aborted || (docs.map Prod.fst).any o.lookupFails) := by
  induction docs with
  | nil =>
    intro st
    simp [processDocs]
  | cons kv rest ih =>
    intro st
    obtain ⟨uid, data⟩ := kv
    by_cases hab : st.aborted = true
    · simp [processDocs, hab]
    · by_cases hlk : o.lookupFails uid = true
      · simp [processDocs, hab, hlk]
      · by_cases hpres : (lookupDest dest uid).isSome = true
        · simp [processDocs, hab, hlk, hpres, ih]
        · by_cases hprep : o.prepFails uid = true
          · simp [processDocs, hab, hlk, hpres, hprep, ih]
          · by_cases hfl : 450 ≤ st.opCount + 1
            · simp [processDocs, hab, hlk, hpres, hprep, hfl, ih]
            · simp [processDocs, hab, hlk, hpres, hprep, hfl, ih]

theorem processDocs_char (o : Oracles) (dest : Dest) (inst : String)
    (docs : List (Key × Nat)) :
    ∀ st : InstSt, (∀ kv ∈ docs, o.lookupFails kv.1 = false) →
      st.opCount = st.currentBatch.length → st.aborted = false →
      processDocs o dest inst docs st =
        { migrated := st.migrated,
          skipped := st.skipped + skippedOf dest docs,
          errored := st.errored + prepErrsOf o dest docs,
          batches := (accumulate st.currentBatch st.batches (queuedRecs o dest inst docs)).1,
          currentBatch := (accumulate st.currentBatch st.batches (queuedRecs o dest inst docs)).2,
          opCount := (accumulate st.currentBatch st.batches (queuedRecs o dest inst docs)).2.length,
          events := st.events ++ eventsOf o dest docs,
          aborted := false } := by
  induction docs with
  | nil =>
    intro st hl hop hab
    obtain ⟨m, s, e, B, c, oc, ev, ab⟩ := st
    have hop2 : oc = c.length := hop
    have hab2 : ab = false := hab
    subst hop2
    subst hab2
    simp [processDocs, skippedOf, prepErrsOf, queuedRecs, eventsOf, accumulate]
  | cons kv rest ih =>
    intro st hl hop hab
    obtain ⟨uid, data⟩ := kv
    obtain ⟨m, s, e, B, c, oc, ev, ab⟩ := st
    have hop2 : oc = c.length := hop
    have hab2 : ab = false := hab
    subst hop2
    subst hab2
    have hlk : o.lookupFails uid = false := hl (uid, data) (by simp)
    have hlr : ∀ kv2 ∈ rest, o.lookupFails kv2.1 = false :=
      fun kv2 h2 => hl kv2 (by simp [h2])
    by_cases hpres : (lookupDest dest uid).isSome = true
    · have step : processDocs o dest inst ((uid, data) :: rest) ⟨m, s, e, B, c, c.length, ev, false⟩ =
          processDocs o dest inst rest
            ⟨m, s + 1, e, B, c, c.length, ev ++ [MigEvent.check uid, MigEvent.skip uid], false⟩ := by
        simp [processDocs, hlk, hpres]
      rw [step, ih _ hlr rfl rfl]
      have hnone : lookupDest dest uid ≠ none := by
        intro hcon
        rw [hcon] at hpres
        simp at hpres
      simp [InstSt.mk.injEq, skippedOf, prepErrsOf, queuedRecs, eventsOf, evOne, presentIn,
        hpres, hnone, List.filter_cons, List.append_assoc, Nat.add_assoc, Nat.add_comm,
        Nat.add_left_comm]
    · have hnone : lookupDest dest uid = none := by
        cases hcase : lookupDest dest uid with
        | none => rfl
        | some v =>
          rw [hcase] at hpres
          simp at hpres
      by_cases hprep : o.prepFails uid = true
      · have step : processDocs o dest inst ((uid, data) :: rest) ⟨m, s, e, B, c, c.length, ev, false⟩ =
            processDocs o dest inst rest
              ⟨m, s, e + 1, B, c, c.length, ev ++ [MigEvent.check uid], false⟩ := by
          simp [processDocs, hlk, hpres, hprep]
        rw [step, ih _ hlr rfl rfl]
        simp [InstSt.mk.injEq, skippedOf, prepErrsOf, queuedRecs, eventsOf, evOne, presentIn,
          hpres, hprep, hnone, List.filter_cons, List.append_assoc, Nat.add_assoc, Nat.add_comm,
          Nat.add_left_comm]
      · have hq : queuedRecs o dest inst ((uid, data) :: rest) =
            (uid, { payload := data, instanceField := some inst, migratedAt := true }) ::
              queuedRecs o dest inst rest := by
          simp [queuedRecs, List.filter_cons, presentIn, hpres, hprep, hnone]
        by_cases hfl : 450 ≤ c.length + 1
        · have step : processDocs o dest inst ((uid, data) :: rest) ⟨m, s, e, B, c, c.length, ev, false⟩ =
              processDocs o dest inst rest
                ⟨m, s, e,
                  B ++ [c ++ [(uid, { payload := data, instanceField := some inst, migratedAt := true })]],
                  [], 0, ev ++ [MigEvent.check uid, MigEvent.queue uid], false⟩ := by
            simp [processDocs, hlk, hpres, hprep, hfl]
          rw [step, ih _ hlr rfl rfl, hq]
          have hacc : accumulate c B
              ((uid, { payload := data, instanceField := some inst, migratedAt := true }) ::
                queuedRecs o dest inst rest) =
              accumulate []
                (B ++ [c ++ [(uid, { payload := data, instanceField := some inst, migratedAt := true })]])
                (queuedRecs o dest inst rest) := by
            simp only [accumulate]
            rw [if_pos (by simpa using hfl)]
          rw [hacc]
          simp [InstSt.mk.injEq, skippedOf, prepErrsOf, eventsOf, evOne, presentIn,
            hpres, hprep, hnone, List.filter_cons, List.append_assoc]
        · have step : processDocs o dest inst ((uid, data) :: rest) ⟨m, s, e, B, c, c.length, ev, false⟩ =
              processDocs o dest inst rest
                ⟨m, s, e, B,
                  c ++ [(uid, { payload := data, instanceField := some inst, migratedAt := true })],
                  c.length + 1, ev ++ [MigEvent.check uid, MigEvent.queue uid], false⟩ := by
            simp [processDocs, hlk, hpres, hprep, hfl]
          rw [step, ih _ hlr (by simp) rfl, hq]
          have hacc : accumulate c B
              ((uid, { payload := data, instanceField := some inst, migratedAt := true }) ::
                queuedRecs o dest inst rest) =
              accumulate
                (c ++ [(uid, { payload := data, instanceField := some inst, migratedAt := true })])
                B (queuedRecs o dest inst rest) := by
            simp only [accumulate]
            rw [if_neg (by simpa using hfl)]
          rw [hacc]
          simp [InstSt.mk.injEq, skippedOf, prepErrsOf, eventsOf, evOne, presentIn,
            hpres, hprep, hnone, List.filter_cons, List.append_assoc]

theorem commitBatches_events (cf : Nat → Bool) (total oc : Nat)
    (bs : List (List (Key × UserData))) :
    ∀ (i : Nat) (st : CommitSt), (commitBatches cf total oc bs i st).events =
      st.events ++ (List.range bs.length).map (fun j => MigEvent.commit (i + j)) := by
  induction bs with
  | nil =>
    intro i st
    simp [commitBatches]
  | cons b bs ih =>
    intro i st
    have hr : ∀ i2 : Nat, (List.range (bs.length + 1)).map (fun j => MigEvent.commit (i2 + j)) =
        MigEvent.commit i2 :: (List.range bs.length).map (fun j => MigEvent.commit (i2 + 1 + j)) := by
      intro i2
      rw [List.range_succ_eq_map, List.map_cons, List.map_map]
      refine congrArg₂ List.cons (by simp) (List.map_congr_left fun a ha => ?_)
      simp only [Function.comp_apply]
      congr 1
      omega
    by_cases hf : cf i = true
    · simp only [commitBatches, hf, if_pos]
      rw [ih]
      simp [hr, List.append_assoc]
    · simp only [commitBatches, hf]
      rw [if_neg (by simp [hf])]
      rw [ih]
      simp [hr, List.append_assoc]

theorem commitBatches_success (cf : Nat → Bool) (total oc : Nat)
    (bs : List (List (Key × UserData))) :
    ∀ (i : Nat) (st : CommitSt), (∀ j, cf j = false) →
    commitBatches cf total oc bs i st =
      { dest := bs.foldl writeAll st.dest,
        migrated := st.migrated + weightSum total oc i bs.length,
        errored := st.errored,
        events := st.events ++ (List.range bs.length).map (fun j => MigEvent.commit (i + j)) } := by
  induction bs with
  | nil =>
    intro i st hc
    simp [commitBatches, weightSum]
  | cons b bs ih =>
    intro i st hc
    simp only [commitBatches]
    rw [if_neg (by simp [hc i])]
    rw [ih (i + 1) _ hc]
    have hr : (List.range (bs.length + 1)).map (fun j => MigEvent.commit (i + j)) =
        MigEvent.commit i :: (List.range bs.length).map (fun j => MigEvent.commit (i + 1 + j)) := by
      rw [List.range_succ_eq_map, List.map_cons, List.map_map]
      refine congrArg₂ List.cons (by simp) (List.map_congr_left fun a ha => ?_)
      simp only [Function.comp_apply]
      congr 1
      omega
    simp [CommitSt.mk.injEq, weightSum, hr, List.append_assoc, Nat.add_assoc]

theorem weightSum_eval (total oc : Nat) :
    ∀ (n i : Nat), i + n = total →
    weightSum total oc i n = if n = 0 then 0 else 450 * (n - 1) + oc := by
  intro n
  induction n with
  | zero =>
    intro i hi
    simp [weightSum]
  | succ n ihn =>
    intro i hi
    by_cases hn : n = 0
    · subst hn
      have hi2 : i = total - 1 := by omega
      simp [weightSum, hi2]
    · have hne : ¬(i = total - 1) := by omega
      simp only [weightSum, hne, if_false]
      rw [ihn (i + 1) (by omega), if_neg hn, if_neg (Nat.succ_ne_zero n)]
      omega

theorem commitBatches_dest_lookup (cf : Nat → Bool) (total oc : Nat)
    (bs : List (List (Key × UserData))) :
    ∀ (i : Nat) (st : CommitSt) (k : Key), k ∉ bs.flatten.map Prod.fst →
      lookupDest (commitBatches cf total oc bs i st).dest k = lookupDest st.dest k := by
  induction bs with
  | nil =>
    intro i st k h
    rfl
  | cons b bs ih =>
    intro i st k h
    simp only [List.flatten_cons, List.map_append, List.mem_append, not_or] at h
    by_cases hf : cf i = true
    · simp only [commitBatches, hf, if_pos]
      rw [ih]
      exact h.2
    · simp only [commitBatches, hf]
      rw [if_neg (by simp [hf]), ih _ _ _ h.2]
      exact lookupDest_writeAll_not_mem _ _ _ h.1

theorem commitBatches_dest_isSome (cf : Nat → Bool) (total oc : Nat)
    (bs : List (List (Key × UserData))) :
    ∀ (i : Nat) (st : CommitSt) (k : Key), (lookupDest st.dest k).isSome →
      (lookupDest (commitBatches cf total oc bs i st).dest k).isSome := by
  induction bs with
  | nil =>
    intro i st k h
    exact h
  | cons b bs ih =>
    intro i st k h
    by_cases hf : cf i = true
    · simp only [commitBatches, hf, if_pos]
      exact ih _ _ _ h
    · simp only [commitBatches, hf]
      rw [if_neg (by simp [hf])]
      exact ih _ _ _ (lookupDest_writeAll_isSome_mono _ _ _ h)

theorem foldl_writeAll_flatten (bs : List (List (Key × UserData))) :
    ∀ d : Dest, bs.foldl writeAll d = writeAll d bs.flatten := by
  induction bs with
  | nil =>
    intro d
    rfl
  | cons b bs ih =>
    intro d
    rw [List.foldl_cons, ih, List.flatten_cons, writeAll_append]

theorem queuedRecs_key_absent (o : Oracles) (dest : Dest) (inst : String)
    (docs : List (Key × Nat)) :
    ∀ kv ∈ queuedRecs o dest inst docs, lookupDest dest kv.1 = none := by
  intro kv hkv
  simp only [queuedRecs, List.mem_map] at hkv
  obtain ⟨a, ha, rfl⟩ := hkv
  have hf := (List.mem_filter.mp ha).2
  simp only [presentIn, Bool.and_eq_true, Bool.not_eq_true'] at hf
  cases hcase : lookupDest dest a.1 with
  | none => rfl
  | some v =>
    rw [hcase] at hf
    simp at hf

theorem queuedRecs_keys (o : Oracles) (dest : Dest) (inst : String)
    (docs : List (Key × Nat)) :
    (queuedRecs o dest inst docs).map Prod.fst =
      (docs.filter (fun kv => !presentIn dest kv && !o.prepFails kv.1)).map Prod.fst := by
  simp only [queuedRecs, List.map_map]
  exact List.map_congr_left fun a _ => rfl

theorem queuedRecs_keys_nodup (o : Oracles) (dest : Dest) (inst : String)
    (docs : List (Key × Nat)) (hnd : (docs.map Prod.fst).Nodup) :
    ((queuedRecs o dest inst docs).map Prod.fst).Nodup := by
  rw [queuedRecs_keys]
  exact hnd.sublist ((docs.filter_sublist).map Prod.fst)

theorem queuedRecs_key_mem (o : Oracles) (dest : Dest) (inst : String)
    (docs : List (Key × Nat)) (uid : Key) (p : Nat)
    (hm : (uid, p) ∈ docs) (habs : lookupDest dest uid = none)
    (hp : o.prepFails uid = false) :
    (uid, { payload := p, instanceField := some inst, migratedAt := true }) ∈
      queuedRecs o dest inst docs := by
  simp only [queuedRecs, List.mem_map]
  refine ⟨(uid, p), List.mem_filter.mpr ⟨hm, ?_⟩, rfl⟩
  simp [presentIn, habs, hp]

theorem allBatches_spec (q : List (Key × UserData)) :
    (if 0 < (accumulate [] [] q).2.length
      then (accumulate [] [] q).1 ++ [(accumulate [] [] q).2]
      else (accumulate [] [] q).1).flatten = q ∧
    (if 0 < (accumulate [] [] q).2.length
      then (accumulate [] [] q).1 ++ [(accumulate [] [] q).2]
      else (accumulate [] [] q).1).length = (q.length + 449) / 450 ∧
    (∀ b ∈ (if 0 < (accumulate [] [] q).2.length
      then (accumulate [] [] q).1 ++ [(accumulate [] [] q).2]
      else (accumulate [] [] q).1).dropLast, b.length = 450) ∧
    (0 < q.length →
      ((if 0 < (accumulate [] [] q).2.length
        then (accumulate [] [] q).1 ++ [(accumulate [] [] q).2]
        else (accumulate [] [] q).1).getLastD []).length =
        if q.length % 450 = 0 then 450 else q.length % 450) := by
  obtain ⟨D, h1, h2, h3, h4, h5⟩ := accumulate_spec q [] [] (by simp)
  simp only [List.nil_append, List.length_nil, Nat.zero_add] at h1 h3 h4 h5
  by_cases h : 0 < (accumulate [] [] q).2.length
  · have hmod : 0 < q.length % 450 := by
      rw [← h4]
      exact h
    refine ⟨?_, ?_, ?_, ?_⟩
    · rw [if_pos h, List.flatten_append, h1]
      simp only [List.flatten_cons, List.flatten_nil, List.append_nil]
      exact h3
    · rw [if_pos h, List.length_append, h1, h5]
      simp only [List.length_singleton]
      omega
    · rw [if_pos h, h1, List.dropLast_concat]
      exact h2
    · intro hq
      rw [if_pos h, h1, List.getLastD_concat, h4, if_neg (by omega)]
  · have hmod : q.length % 450 = 0 := by
      rw [← h4]
      omega
    have h2nil : (accumulate [] [] q).2 = [] := by
      have : (accumulate [] [] q).2.length = 0 := by omega
      exact List.length_eq_zero.mp this
    refine ⟨?_, ?_, ?_, ?_⟩
    · rw [if_neg h, h1]
      have := h3
      rw [h2nil, List.append_nil] at this
      exact this
    · rw [if_neg h, h1, h5]
      omega
    · rw [if_neg h, h1]
      intro b hb
      exact h2 b (List.dropLast_subset _ hb)
    · intro hq
      rw [if_neg h, h1, if_pos hmod]
      have hDne : D ≠ [] := by
        intro hD
        subst hD
        rw [h2nil, List.append_nil] at h3
        simp only [List.flatten_nil] at h3
        rw [← h3] at hq
        simp at hq
      rcases List.eq_nil_or_concat D with hD | ⟨D2, b, hD⟩
      · exact absurd hD hDne
      · subst hD
        rw [List.concat_eq_append, List.getLastD_concat]
        exact h2 b (by simp)

theorem migrateInstance_eq (o : Oracles) (docs : List (Key × Nat)) (inst : String)
    (dest : Dest) (m s e : Nat)
    (hl : ∀ kv ∈ docs, o.lookupFails kv.1 = false) :
    migrateInstance o docs inst dest m s e =
      (let q := queuedRecs o dest inst docs
       let acc := accumulate [] [] q
       let allB := if 0 < acc.2.length then acc.1 ++ [acc.2] else acc.1
       let cst := commitBatches (o.commitFails inst) allB.length acc.2.length allB 0
         { dest := dest, migrated := m, errored := e + prepErrsOf o dest docs,
           events := eventsOf o dest docs }
       { dest := cst.dest, migrated := cst.migrated, skipped := s + skippedOf dest docs,
         errored := cst.errored, formedBatches := allB, events := cst.events,
         aborted := false }) := by
  simp only [migrateInstance]
  rw [processDocs_char o dest inst docs _ hl rfl rfl]
  simp

theorem accumulate_res_length (q : List (Key × UserData)) :
    (accumulate [] [] q).2.length = q.length % 450 := by
  obtain ⟨D, h1, h2, h3, h4, h5⟩ := accumulate_spec q [] [] (by simp)
  simpa using h4

theorem migrateInstance_aborted (o : Oracles) (docs : List (Key × Nat)) (inst : String)
    (dest : Dest) (m s e : Nat) :
    (migrateInstance o docs inst dest m s e).aborted =
      (docs.map Prod.fst).any o.lookupFails := by
  by_cases h : (docs.map Prod.fst).any o.lookupFails = true
  · simp only [migrateInstance]
    rw [if_pos (by rw [processDocs_aborted]; simp [h])]
    simp [h]
  · have h2 : (docs.map Prod.fst).any o.lookupFails = false := by
      cases hc : (docs.map Prod.fst).any o.lookupFails
      · rfl
      · exact absurd hc h
    simp only [migrateInstance]
    rw [if_neg (by rw [processDocs_aborted]; simp [h2])]
    simp [h2]

theorem migrateInstance_abort_dest (o : Oracles) (docs : List (Key × Nat)) (inst : String)
    (dest : Dest) (m s e : Nat)
    (h : (docs.map Prod.fst).any o.lookupFails = true) :
    (migrateInstance o docs inst dest m s e).dest = dest := by
  simp only [migrateInstance]
  rw [if_pos (by rw [processDocs_aborted]; simp [h])]

theorem lookupFails_false_of_not_any (o : Oracles) (docs : List (Key × Nat))
    (h : ¬(docs.map Prod.fst).any o.lookupFails = true) :
    ∀ kv ∈ docs, o.lookupFails kv.1 = false := by
  intro kv hkv
  cases hc : o.lookupFails kv.1
  · rfl
  · exact absurd (List.any_eq_true.mpr ⟨kv.1, List.mem_map_of_mem _ hkv, hc⟩) h

theorem migrateInstance_preserve (o : Oracles) (docs : List (Key × Nat)) (inst : String)
    (dest : Dest) (m s e : Nat) (k : Key) (v : UserData)
    (hv : lookupDest dest k = some v) :
    lookupDest (migrateInstance o docs inst dest m s e).dest k = some v := by
  by_cases h : (docs.map Prod.fst).any o.lookupFails = true
  · rw [migrateInstance_abort_dest o docs inst dest m s e h]
    exact hv
  · have hl := lookupFails_false_of_not_any o docs h
    rw [migrateInstance_eq o docs inst dest m s e hl]
    dsimp only
    have hnm : k ∉ (if 0 < (accumulate [] [] (queuedRecs o dest inst docs)).2.length
        then (accumulate [] [] (queuedRecs o dest inst docs)).1 ++
          [(accumulate [] [] (queuedRecs o dest inst docs)).2]
        else (accumulate [] [] (queuedRecs o dest inst docs)).1).flatten.map Prod.fst := by
      rw [(allBatches_spec (queuedRecs o dest inst docs)).1]
      intro hmem
      obtain ⟨kv, hkv, hk⟩ := List.mem_map.mp hmem
      have habs := queuedRecs_key_absent o dest inst docs kv hkv
      rw [hk] at habs
      rw [habs] at hv
      exact Option.noConfusion hv
    exact (commitBatches_dest_lookup _ _ _ _ _ _ _ hnm).trans hv

theorem migrateInstance_isSome_mono (o : Oracles) (docs : List (Key × Nat)) (inst : String)
    (dest : Dest) (m s e : Nat) (k : Key)
    (hv : (lookupDest dest k).isSome = true) :
    (lookupDest (migrateInstance o docs inst dest m s e).dest k).isSome = true := by
  by_cases h : (docs.map Prod.fst).any o.lookupFails = true
  · rw [migrateInstance_abort_dest o docs inst dest m s e h]
    exact hv
  · have hl := lookupFails_false_of_not_any o docs h
    rw [migrateInstance_eq o docs inst dest m s e hl]
    dsimp only
    exact commitBatches_dest_isSome _ _ _ _ _ _ _ hv

theorem migrateInstance_dest_success (o : Oracles) (docs : List (Key × Nat)) (inst : String)
    (dest : Dest) (m s e : Nat)
    (hl : ∀ kv ∈ docs, o.lookupFails kv.1 = false)
    (hc : ∀ j, o.commitFails inst j = false)
    (hnd : (docs.map Prod.fst).Nodup) :
    (migrateInstance o docs inst dest m s e).dest = dest ++ queuedRecs o dest inst docs := by
  rw [migrateInstance_eq o docs inst dest m s e hl]
  dsimp only
  rw [commitBatches_success _ _ _ _ _ _ hc]
  dsimp only
  rw [foldl_writeAll_flatten, (allBatches_spec _).1]
  exact writeAll_fresh _ _ (queuedRecs_key_absent o dest inst docs)
    (queuedRecs_keys_nodup o dest inst docs hnd)

theorem migrateInstance_migrated_success (o : Oracles) (docs : List (Key × Nat)) (inst : String)
    (dest : Dest) (m s e : Nat)
    (hl : ∀ kv ∈ docs, o.lookupFails kv.1 = false)
    (hc : ∀ j, o.commitFails inst j = false)
    (h450 : (queuedRecs o dest inst docs).length % 450 ≠ 0) :
    (migrateInstance o docs inst dest m s e).migrated =
      m + (queuedRecs o dest inst docs).length := by
  rw [migrateInstance_eq o docs inst dest m s e hl]
  dsimp only
  rw [commitBatches_success _ _ _ _ _ _ hc]
  dsimp only
  rw [weightSum_eval _ _ _ 0 (by omega)]
  have hL := (allBatches_spec (queuedRecs o dest inst docs)).2.1
  have hoc := accumulate_res_length (queuedRecs o dest inst docs)
  rw [hL, hoc]
  rw [if_neg (by omega : ¬((queuedRecs o dest inst docs).length + 449) / 450 = 0)]
  omega

theorem filter_present_eq_self (dest : Dest) (docs : List (Key × Nat))
    (hall : ∀ kv ∈ docs, (lookupDest dest kv.1).isSome = true) :
    docs.filter (fun kv => presentIn dest kv) = docs := by
  rw [List.filter_eq_self]
  intro kv hkv
  simp [presentIn, hall kv hkv]

theorem migrateInstance_all_present (o : Oracles) (docs : List (Key × Nat)) (inst : String)
    (dest : Dest) (m s e : Nat)
    (hl : ∀ kv ∈ docs, o.lookupFails kv.1 = false)
    (hall : ∀ kv ∈ docs, (lookupDest dest kv.1).isSome = true) :
    migrateInstance o docs inst dest m s e =
      { dest := dest, migrated := m, skipped := s + docs.length, errored := e,
        formedBatches := [], events := eventsOf o dest docs, aborted := false } := by
  have hq : queuedRecs o dest inst docs = [] := by
    simp only [queuedRecs, List.map_eq_nil_iff]
    rw [List.filter_eq_nil_iff]
    intro kv hkv
    simp [presentIn, hall kv hkv]
  have hpe : prepErrsOf o dest docs = 0 := by
    simp only [prepErrsOf]
    rw [List.filter_eq_nil_iff.mpr]
    · rfl
    · intro kv hkv
      simp [presentIn, hall kv hkv]
  have hsk : skippedOf dest docs = docs.length := by
    simp only [skippedOf]
    rw [filter_present_eq_self dest docs hall]
  rw [migrateInstance_eq o docs inst dest m s e hl]
  dsimp only
  rw [hq, hpe, hsk]
  simp [accumulate, commitBatches]

theorem migrateInstance_key_isSome (o : Oracles) (docs : List (Key × Nat)) (inst : String)
    (dest : Dest) (m s e : Nat) (k : Key)
    (hl : ∀ kv ∈ docs, o.lookupFails kv.1 = false)
    (hp : ∀ kv ∈ docs, o.prepFails kv.1 = false)
    (hc : ∀ j, o.commitFails inst j = false)
    (hk : k ∈ docs.map Prod.fst) :
    (lookupDest (migrateInstance o docs inst dest m s e).dest k).isSome = true := by
  rw [migrateInstance_eq o docs inst dest m s e hl]
  dsimp only
  rw [commitBatches_success _ _ _ _ _ _ hc]
  dsimp only
  rw [foldl_writeAll_flatten, (allBatches_spec _).1]
  by_cases hpres : (lookupDest dest k).isSome = true
  · exact lookupDest_writeAll_isSome_mono _ _ _ hpres
  · have hnone : lookupDest dest k = none := by
      cases hcase : lookupDest dest k
      · rfl
      · rw [hcase] at hpres
        simp at hpres
    obtain ⟨kv, hmem, huid⟩ := List.mem_map.mp hk
    apply lookupDest_writeAll_isSome_of_mem
    have hqm : (k, { payload := kv.2, instanceField := some inst, migratedAt := true }) ∈
        queuedRecs o dest inst docs := by
      apply queuedRecs_key_mem o dest inst docs k kv.2 _ hnone
      · cases hcp : o.prepFails k
        · rfl
        · have := hp kv hmem
          rw [huid] at this
          rw [this] at hcp
          exact hcp.symm ▸ rfl
      · have : kv = (k, kv.2) := by
          rw [← huid]
        rw [← this]
        exact hmem
    exact List.mem_map_of_mem Prod.fst hqm

theorem eventsOf_cons (o : Oracles) (dest : Dest) (kv : Key × Nat)
    (rest : List (Key × Nat)) :
    eventsOf o dest (kv :: rest) = evOne o dest kv ++ eventsOf o dest rest := by
  simp [eventsOf]

theorem eventsOf_no_commit (o : Oracles) (dest : Dest) (docs : List (Key × Nat)) :
    ∀ ev ∈ eventsOf o dest docs, isCommitEv ev = false := by
  intro ev hev
  simp only [eventsOf, List.mem_flatten, List.mem_map] at hev
  obtain ⟨l, ⟨kv, hkv, hl⟩, hevl⟩ := hev
  subst hl
  simp only [evOne] at hevl
  split at hevl
  · rcases List.mem_cons.mp hevl with rfl | h2
    · rfl
    · rcases List.mem_singleton.mp h2 with rfl
      rfl
  · split at hevl
    · rcases List.mem_singleton.mp hevl with rfl
      rfl
    · rcases List.mem_cons.mp hevl with rfl | h2
      · rfl
      · rcases List.mem_singleton.mp h2 with rfl
        rfl

theorem migrateInstance_events (o : Oracles) (docs : List (Key × Nat)) (inst : String)
    (dest : Dest) (m s e : Nat)
    (hl : ∀ kv ∈ docs, o.lookupFails kv.1 = false) :
    (migrateInstance o docs inst dest m s e).events =
      eventsOf o dest docs ++
        (List.range (migrateInstance o docs inst dest m s e).formedBatches.length).map
          MigEvent.commit := by
  rw [migrateInstance_eq o docs inst dest m s e hl]
  dsimp only
  rw [commitBatches_events]
  dsimp only
  congr 1
  exact List.map_congr_left fun a _ => by simp

theorem migrateInstance_skipped (o : Oracles) (docs : List (Key × Nat)) (inst : String)
    (dest : Dest) (m s e : Nat)
    (hl : ∀ kv ∈ docs, o.lookupFails kv.1 = false) :
    (migrateInstance o docs inst dest m s e).skipped = s + skippedOf dest docs := by
  rw [migrateInstance_eq o docs inst dest m s e hl]

theorem migrateInstance_errored_success (o : Oracles) (docs : List (Key × Nat)) (inst : String)
    (dest : Dest) (m s e : Nat)
    (hl : ∀ kv ∈ docs, o.lookupFails kv.1 = false)
    (hc : ∀ j, o.commitFails inst j = false) :
    (migrateInstance o docs inst dest m s e).errored = e + prepErrsOf o dest docs := by
  rw [migrateInstance_eq o docs inst dest m s e hl]
  dsimp only
  rw [commitBatches_success _ _ _ _ _ _ hc]

theorem migrateInstance_batches_spec (o : Oracles) (docs : List (Key × Nat)) (inst : String)
    (dest : Dest) (m s e : Nat)
    (hl : ∀ kv ∈ docs, o.lookupFails kv.1 = false) :
    (migrateInstance o docs inst dest m s e).formedBatches.flatten =
      queuedRecs o dest inst docs ∧
    (migrateInstance o docs inst dest m s e).formedBatches.length =
      ((queuedRecs o dest inst docs).length + 449) / 450 ∧
    (∀ b ∈ (migrateInstance o docs inst dest m s e).formedBatches.dropLast, b.length = 450) ∧
    (0 < (queuedRecs o dest inst docs).length →
      ((migrateInstance o docs inst dest m s e).formedBatches.getLastD []).length =
        if (queuedRecs o dest inst docs).length % 450 = 0 then 450
        else (queuedRecs o dest inst docs).length % 450) := by
  rw [migrateInstance_eq o docs inst dest m s e hl]
  dsimp only
  exact allBatches_spec _

theorem queuedRecs_length_no_prep (o : Oracles) (dest : Dest) (inst : String)
    (docs : List (Key × Nat)) (hp : ∀ kv ∈ docs, o.prepFails kv.1 = false) :
    (queuedRecs o dest inst docs).length =
      (docs.filter (fun kv => !presentIn dest kv)).length := by
  simp only [queuedRecs, List.length_map]
  congr 1
  apply List.filter_congr
  intro a ha
  simp [hp a ha]

theorem eventsOf_countP_skip (o : Oracles) (dest : Dest) (docs : List (Key × Nat)) :
    (eventsOf o dest docs).countP isSkipEv = skippedOf dest docs := by
  induction docs with
  | nil => simp [eventsOf, skippedOf]
  | cons kv rest ih =>
    rw [eventsOf_cons, List.countP_append, ih]
    simp only [skippedOf, List.filter_cons]
    by_cases hpres : presentIn dest kv = true
    · rw [if_pos (by simp [hpres])]
      have : (evOne o dest kv).countP isSkipEv = 1 := by
        simp [evOne, presentIn] at hpres ⊢
        simp [hpres, List.countP_cons, isSkipEv]
      rw [this]
      simp only [List.length_cons, skippedOf]
      omega
    · rw [if_neg (by simp [hpres])]
      have : (evOne o dest kv).countP isSkipEv = 0 := by
        have hp2 : presentIn dest kv = false := by
          cases hcc : presentIn dest kv
          · rfl
          · exact absurd hcc hpres
        simp only [evOne, presentIn] at hp2 ⊢
        simp [hp2]
        split
        · simp [List.countP_cons, isSkipEv]
        · simp [List.countP_cons, isSkipEv]
      rw [this]
      simp [skippedOf]

theorem commitBatches_failure (cf : Nat → Bool) (total oc : Nat)
    (bs : List (List (Key × UserData))) :
    ∀ (i : Nat) (st : CommitSt), (∀ j, cf j = true) →
    commitBatches cf total oc bs i st =
      { dest := st.dest,
        migrated := st.migrated,
        errored := st.errored + weightSum total oc i bs.length,
        events := st.events ++ (List.range bs.length).map (fun j => MigEvent.commit (i + j)) } := by
  induction bs with
  | nil =>
    intro i st hc
    simp [commitBatches, weightSum]
  | cons b bs ih =>
    intro i st hc
    simp only [commitBatches]
    rw [if_pos (hc i)]
    rw [ih (i + 1) _ hc]
    have hr : (List.range (bs.length + 1)).map (fun j => MigEvent.commit (i + j)) =
        MigEvent.commit i :: (List.range bs.length).map (fun j => MigEvent.commit (i + 1 + j)) := by
      rw [List.range_succ_eq_map, List.map_cons, List.map_map]
      refine congrArg₂ List.cons (by simp) (List.map_congr_left fun a ha => ?_)
      simp only [Function.comp_apply]
      congr 1
      omega
    simp [CommitSt.mk.injEq, weightSum, hr, List.append_assoc, Nat.add_assoc]

theorem migrateInstance_migrated_eq (o : Oracles) (docs : List (Key × Nat)) (inst : String)
    (dest : Dest) (m s e : Nat)
    (hl : ∀ kv ∈ docs, o.lookupFails kv.1 = false)
    (hc : ∀ j, o.commitFails inst j = false) :
    (migrateInstance o docs inst dest m s e).migrated =
      m + buggyCount (queuedRecs o dest inst docs).length := by
  rw [migrateInstance_eq o docs inst dest m s e hl]
  dsimp only
  rw [commitBatches_success _ _ _ _ _ _ hc]
  dsimp only
  rw [weightSum_eval _ _ _ 0 (by omega)]
  have hL := (allBatches_spec (queuedRecs o dest inst docs)).2.1
  have hoc := accumulate_res_length (queuedRecs o dest inst docs)
  rw [hL, hoc, buggyCount]
  by_cases hq : (queuedRecs o dest inst docs).length = 0
  · rw [hq]
  · rw [if_neg (by omega : ¬((queuedRecs o dest inst docs).length + 449) / 450 = 0),
      if_neg hq]

theorem migrateInstance_errored_failure (o : Oracles) (docs : List (Key × Nat)) (inst : String)
    (dest : Dest) (m s e : Nat)
    (hl : ∀ kv ∈ docs, o.lookupFails kv.1 = false)
    (hc : ∀ j, o.commitFails inst j = true) :
    (migrateInstance o docs inst dest m s e).errored =
      e + prepErrsOf o dest docs + buggyCount (queuedRecs o dest inst docs).length ∧
    (migrateInstance o docs inst dest m s e).migrated = m ∧
    (migrateInstance o docs inst dest m s e).dest = dest := by
  rw [migrateInstance_eq o docs inst dest m s e hl]
  dsimp only
  rw [commitBatches_failure _ _ _ _ _ _ hc]
  dsimp only
  rw [weightSum_eval _ _ _ 0 (by omega)]
  have hL := (allBatches_spec (queuedRecs o dest inst docs)).2.1
  have hoc := accumulate_res_length (queuedRecs o dest inst docs)
  rw [hL, hoc, buggyCount]
  refine ⟨?_, rfl, rfl⟩
  by_cases hq : (queuedRecs o dest inst docs).length = 0
  · rw [hq]
  · rw [if_neg (by omega : ¬((queuedRecs o dest inst docs).length + 449) / 450 = 0),
      if_neg hq]

theorem migrateUsers_completed (o : Oracles) (docs1 docs2 : List (Key × Nat)) (dest0 : Dest)
    (he : ∀ nm, o.enumFails nm = false)
    (hl : ∀ k, o.lookupFails k = false) :
    migrateUsers o docs1 docs2 dest0 =
      (let r1 := migrateInstance o docs1 "instance1" dest0 0 0 0
       let r2 := migrateInstance o docs2 "instance2" r1.dest r1.migrated r1.skipped r1.errored
       { dest := r2.dest, migrated := r2.migrated, skipped := r2.skipped,
         errored := r2.errored, formedBatches1 := r1.formedBatches,
         formedBatches2 := r2.formedBatches, events1 := r1.events, events2 := r2.events,
         tally := computeTally r2.dest, errorWarning := decide (0 < r2.errored),
         completed := true }) := by
  have ha1 : (migrateInstance o docs1 "instance1" dest0 0 0 0).aborted = false := by
    rw [migrateInstance_aborted]
    simp [hl]
  have ha2 : ∀ (d : Dest) (m s e : Nat),
      (migrateInstance o docs2 "instance2" d m s e).aborted = false := by
    intro d m s e
    rw [migrateInstance_aborted]
    simp [hl]
  simp only [migrateUsers, he]
  simp [ha1, ha2]

theorem migrateInstance_nil (o : Oracles) (inst : String) (dest : Dest) (m s e : Nat) :
    migrateInstance o [] inst dest m s e =
      { dest := dest, migrated := m, skipped := s, errored := e,
        formedBatches := [], events := [], aborted := false } := by
  simp [migrateInstance, processDocs, commitBatches]

theorem prepErrsOf_no_prep (o : Oracles) (dest : Dest) (docs : List (Key × Nat))
    (hp : ∀ kv ∈ docs, o.prepFails kv.1 = false) :
    prepErrsOf o dest docs = 0 := by
  simp only [prepErrsOf]
  rw [List.filter_eq_nil_iff.mpr]
  · rfl
  · intro kv hkv
    simp [hp kv hkv]

theorem countTag_append (d1 d2 : Dest) (name : String) :
    countTag (d1 ++ d2) name = countTag d1 name + countTag d2 name := by
  simp [countTag, List.filter_append]

theorem queuedRecs_countTag (o : Oracles) (dest : Dest) (inst : String)
    (docs : List (Key × Nat)) :
    countTag (queuedRecs o dest inst docs) inst = (queuedRecs o dest inst docs).length := by
  simp only [countTag]
  rw [List.filter_eq_self.mpr]
  intro kv hkv
  simp only [queuedRecs, List.mem_map] at hkv
  obtain ⟨a, ha, rfl⟩ := hkv
  simp

theorem tallyCount_bump (t : List (String × Nat)) (nm name : String) :
    tallyCount (bumpTally t nm) name =
      tallyCount t name + (if nm = name then 1 else 0) := by
  induction t with
  | nil =>
    by_cases h : nm = name
    · simp [bumpTally, tallyCount, h]
    · simp [bumpTally, tallyCount, h]
  | cons hd rest ih =>
    obtain ⟨n, c⟩ := hd
    by_cases hn : n = nm
    · subst hn
      by_cases h : n = name
      · simp [bumpTally, tallyCount, h]
      · simp [bumpTally, tallyCount, h]
    · by_cases h : n = name
      · subst h
        have hn2 : ¬(nm = n) := fun hq => hn hq.symm
        simp [bumpTally, tallyCount, hn, hn2, ih]
      · simp [bumpTally, tallyCount, hn, h, ih]

theorem computeTally_count (d : Dest) (name : String) (hname : name ≠ "unknown") :
    tallyCount (computeTally d) name = countTag d name := by
  suffices h : ∀ t, tallyCount (d.foldl (fun t2 kv => bumpTally t2 (instTag kv.2)) t) name =
      tallyCount t name + countTag d name by
    simpa [computeTally, tallyCount] using h []
  induction d with
  | nil =>
    intro t
    simp [countTag]
  | cons kv rest ih =>
    intro t
    simp only [List.foldl_cons]
    rw [ih (bumpTally t (instTag kv.2)), tallyCount_bump]
    simp only [countTag, List.filter_cons]
    cases hf : kv.2.instanceField with
    | none =>
      have h1 : instTag kv.2 = "unknown" := by simp [instTag, hf]
      rw [h1, if_neg (fun hcon => hname hcon.symm)]
      rw [if_neg (by simp [hf])]
      omega
    | some s2 =>
      have h1 : instTag kv.2 = s2 := by simp [instTag, hf]
      rw [h1]
      by_cases hs : s2 = name
      · rw [if_pos hs, if_pos (by simp [hf, hs])]
        simp only [List.length_cons, countTag]
        omega
      · rw [if_neg hs, if_neg (by simp [hf, hs])]
        omega

theorem count_skip_commits (n : Nat) (k : Key) :
    ((List.range n).map MigEvent.commit).count (MigEvent.skip k) = 0 := by
  rw [List.count_eq_zero]
  intro hmem
  obtain ⟨j, hj, hje⟩ := List.mem_map.mp hmem
  exact MigEvent.noConfusion hje

theorem countP_skip_commits (n : Nat) :
    ((List.range n).map MigEvent.commit).countP isSkipEv = 0 := by
  rw [List.countP_eq_zero]
  intro a ha
  obtain ⟨j, hj, hje⟩ := List.mem_map.mp ha
  subst hje
  simp [isSkipEv]

theorem eventsOf_count_skip (o : Oracles) (dest : Dest) (docs : List (Key × Nat)) (k : Key)
    (hpres : (lookupDest dest k).isSome = true) :
    (eventsOf o dest docs).count (MigEvent.skip k) = (docs.map Prod.fst).count k := by
  induction docs with
  | nil => simp [eventsOf]
  | cons kv rest ih =>
    obtain ⟨uid, p⟩ := kv
    rw [eventsOf_cons, List.count_append, ih]
    by_cases hk : uid = k
    · subst hk
      have hpr : presentIn dest (uid, p) = true := by simpa [presentIn] using hpres
      have h1 : (evOne o dest (uid, p)).count (MigEvent.skip uid) = 1 := by
        simp [evOne, hpr, List.count_cons]
      rw [h1]
      simp [List.count_cons]
      omega
    · have h0 : (evOne o dest (uid, p)).count (MigEvent.skip k) = 0 := by
        simp only [evOne]
        split
        · simp [List.count_cons, hk]
        · split
          · simp [List.count_cons]
          · simp [List.count_cons, hk]
      rw [h0]
      simp [List.count_cons, hk]

/-- Claim C1: a key K present in the unified destination before a run is
    never overwritten by the run — afterwards the destination still holds
    the pre-existing value — and every encounter of K in a source
    partition produces exactly one skip, with the skipped counter equal
    to the total number of skip events (so it is incremented exactly
    once per skip). -/
theorem c1_no_overwrite (o : Oracles) (docs1 docs2 : List (Key × Nat)) (dest0 : Dest)
    (k : Key) (v : UserData)
    (hv : lookupDest dest0 k = some v)
    (he : ∀ nm, o.enumFails nm = false)
    (hl : ∀ k2, o.lookupFails k2 = false) :
    lookupDest (migrateUsers o docs1 docs2 dest0).dest k = some v ∧
    ((migrateUsers o docs1 docs2 dest0).events1 ++
      (migrateUsers o docs1 docs2 dest0).events2).count (MigEvent.skip k) =
      (docs1.map Prod.fst).count k + (docs2.map Prod.fst).count k ∧
    (migrateUsers o docs1 docs2 dest0).skipped =
      ((migrateUsers o docs1 docs2 dest0).events1 ++
        (migrateUsers o docs1 docs2 dest0).events2).countP isSkipEv := by
  rw [migrateUsers_completed o docs1 docs2 dest0 he hl]
  dsimp only
  have hl1 : ∀ kv ∈ docs1, o.lookupFails kv.1 = false := fun kv _ => hl kv.1
  have hl2 : ∀ kv ∈ docs2, o.lookupFails kv.1 = false := fun kv _ => hl kv.1
  have hp1 : lookupDest (migrateInstance o docs1 "instance1" dest0 0 0 0).dest k = some v :=
    migrateInstance_preserve o docs1 "instance1" dest0 0 0 0 k v hv
  refine ⟨migrateInstance_preserve o docs2 "instance2" _ _ _ _ k v hp1, ?_, ?_⟩
  · rw [migrateInstance_events o docs1 "instance1" dest0 0 0 0 hl1,
      migrateInstance_events o docs2 "instance2" _ _ _ _ hl2]
    simp only [List.count_append]
    rw [eventsOf_count_skip o dest0 docs1 k (by rw [hv]; rfl),
      eventsOf_count_skip o _ docs2 k (by rw [hp1]; rfl),
      count_skip_commits, count_skip_commits]
    omega
  · rw [migrateInstance_skipped o docs2 "instance2" _ _ _ _ hl2,
      migrateInstance_skipped o docs1 "instance1" dest0 0 0 0 hl1,
      migrateInstance_events o docs1 "instance1" dest0 0 0 0 hl1,
      migrateInstance_events o docs2 "instance2" _ _ _ _ hl2]
    simp only [List.countP_append]
    rw [eventsOf_countP_skip, eventsOf_countP_skip, countP_skip_commits, countP_skip_commits]
    omega

/-- Witness for C1 at a concrete input: key 1 is pre-seeded in the
    destination with a value differing from the source's, both source
    partitions also hold key 1, and after the run the destination still
    holds the pre-seeded value while key 1 was skipped once per
    partition. -/
theorem c1_no_overwrite_witness :
    lookupDest (migrateUsers oGood [(1, 10), (2, 20)] [(2, 5), (1, 7)]
      [(1, ⟨0, none, false⟩)]).dest 1 = some ⟨0, none, false⟩ ∧
    ((migrateUsers oGood [(1, 10), (2, 20)] [(2, 5), (1, 7)]
      [(1, ⟨0, none, false⟩)]).events1 ++
      (migrateUsers oGood [(1, 10), (2, 20)] [(2, 5), (1, 7)]
        [(1, ⟨0, none, false⟩)]).events2).count (MigEvent.skip 1) =
      ([(1, 10), (2, 20)].map Prod.fst).count 1 +
        ([(2, 5), (1, 7)].map Prod.fst).count 1 ∧
    (migrateUsers oGood [(1, 10), (2, 20)] [(2, 5), (1, 7)]
      [(1, ⟨0, none, false⟩)]).skipped =
      ((migrateUsers oGood [(1, 10), (2, 20)] [(2, 5), (1, 7)]
        [(1, ⟨0, none, false⟩)]).events1 ++
        (migrateUsers oGood [(1, 10), (2, 20)] [(2, 5), (1, 7)]
          [(1, ⟨0, none, false⟩)]).events2).countP isSkipEv :=
  c1_no_overwrite oGood [(1, 10), (2, 20)] [(2, 5), (1, 7)] [(1, ⟨0, none, false⟩)]
    1 ⟨0, none, false⟩ (by decide) (fun _ => rfl) (fun _ => rfl)

/-- Claim C2 (amended): when the existence lookup of some record of a
    partition throws, the error is not caught per record — it propagates
    to the top-level catch, so the whole run aborts: no batch of the
    partition is committed (the destination is exactly as it was before
    the run's first commit of that partition), and the following
    partition is never processed.  The record is not counted errored. -/
theorem c2_lookup_failure_aborts (o : Oracles) (docs1 docs2 : List (Key × Nat)) (dest0 : Dest)
    (he : ∀ nm, o.enumFails nm = false)
    (hf : (docs1.map Prod.fst).any o.lookupFails = true) :
    (migrateUsers o docs1 docs2 dest0).completed = false ∧
    (migrateUsers o docs1 docs2 dest0).dest = dest0 ∧
    (migrateUsers o docs1 docs2 dest0).events2 = [] := by
  have ha : (migrateInstance o docs1 "instance1" dest0 0 0 0).aborted = true := by
    rw [migrateInstance_aborted]
    exact hf
  have hd := migrateInstance_abort_dest o docs1 "instance1" dest0 0 0 0 hf
  simp [migrateUsers, he, ha, hd]

/-- Witness for the amended C2: the lookup of key 1 fails, so the run
    aborts with nothing written and instance2 untouched. -/
theorem c2_lookup_failure_aborts_witness :
    (migrateUsers oLookupFailK1 [(1, 10), (2, 20)] [(3, 30)] []).completed = false ∧
    (migrateUsers oLookupFailK1 [(1, 10), (2, 20)] [(3, 30)] []).dest = [] ∧
    (migrateUsers oLookupFailK1 [(1, 10), (2, 20)] [(3, 30)] []).events2 = [] :=
  c2_lookup_failure_aborts oLookupFailK1 [(1, 10), (2, 20)] [(3, 30)] []
    (fun _ => rfl) (by decide)

/-- Counterexample to C2 as stated: with the lookup of key 1 failing in
    a partition that also holds key 2 (both absent from the empty
    destination), the claim demands key 1 be counted errored and key 2
    be processed normally (hence written); instead the run aborts with
    an error count of 0 and key 2 never written. -/
theorem c2_counterexample :
    (migrateUsers oLookupFailK1 [(1, 10), (2, 20)] [] []).errored = 0 ∧
    lookupDest (migrateUsers oLookupFailK1 [(1, 10), (2, 20)] [] []).dest 2 = none ∧
    (migrateUsers oLookupFailK1 [(1, 10), (2, 20)] [] []).completed = false := by
  decide

/-- Claim C7 (amended): both partition enumerations are performed
    up front inside the single try block, before any record is
    processed; if either fails, the exception aborts the entire run —
    no partition is processed at all, nothing is written and all
    counters stay 0. -/
theorem c7_enum_failure_aborts_run (o : Oracles) (docs1 docs2 : List (Key × Nat)) (dest0 : Dest)
    (h : o.enumFails "instance1" = true ∨ o.enumFails "instance2" = true) :
    (migrateUsers o docs1 docs2 dest0).completed = false ∧
    (migrateUsers o docs1 docs2 dest0).dest = dest0 ∧
    (migrateUsers o docs1 docs2 dest0).migrated = 0 ∧
    (migrateUsers o docs1 docs2 dest0).skipped = 0 ∧
    (migrateUsers o docs1 docs2 dest0).errored = 0 ∧
    (migrateUsers o docs1 docs2 dest0).events1 = [] ∧
    (migrateUsers o docs1 docs2 dest0).events2 = [] := by
  by_cases hu : o.enumFails "users" = true
  · simp [migrateUsers, hu]
  · rcases h with h | h
    · simp [migrateUsers, hu, h]
    · by_cases h1 : o.enumFails "instance1" = true
      · simp [migrateUsers, hu, h1]
      · simp [migrateUsers, hu, h1, h]

/-- Witness for the amended C7 at a concrete input where the instance1
    enumeration fails. -/
theorem c7_enum_failure_aborts_run_witness :
    (migrateUsers oEnumFail1 [(1, 10)] [(5, 7)] []).completed = false ∧
    (migrateUsers oEnumFail1 [(1, 10)] [(5, 7)] []).dest = [] ∧
    (migrateUsers oEnumFail1 [(1, 10)] [(5, 7)] []).migrated = 0 ∧
    (migrateUsers oEnumFail1 [(1, 10)] [(5, 7)] []).skipped = 0 ∧
    (migrateUsers oEnumFail1 [(1, 10)] [(5, 7)] []).errored = 0 ∧
    (migrateUsers oEnumFail1 [(1, 10)] [(5, 7)] []).events1 = [] ∧
    (migrateUsers oEnumFail1 [(1, 10)] [(5, 7)] []).events2 = [] :=
  c7_enum_failure_aborts_run oEnumFail1 [(1, 10)] [(5, 7)] [] (Or.inl (by decide))

/-- Counterexample to C7 as stated: the enumeration of instance1 fails
    while instance2 holds key 5, absent from the empty destination; the
    claim demands instance2 still be read, deduplicated and committed in
    full (hence key 5 written and migrated), but the whole run aborts:
    key 5 is never written and nothing is counted. -/
theorem c7_counterexample :
    (migrateUsers oEnumFail1 [] [(5, 7)] []).completed = false ∧
    lookupDest (migrateUsers oEnumFail1 [] [(5, 7)] []).dest 5 = none ∧
    (migrateUsers oEnumFail1 [] [(5, 7)] []).migrated = 0 := by
  decide

theorem docs460_keys : docs460.map Prod.fst = List.range 460 := by
  rw [docs460, List.map_map]
  exact (List.map_congr_left fun a _ => rfl).trans (List.map_id _)

/-- Claim C4: for a partition whose destination-absent records number
    k > 0 (with no failures), the run forms exactly ceil(k / 450)
    batches, every batch except the last holds exactly 450 records, the
    last holds k mod 450 (or 450 when 450 divides k), and no record
    appears in more than one batch — the queued keys across all batches
    are exactly the absent keys, without duplication. -/
theorem c4_batch_sizes (o : Oracles) (docs : List (Key × Nat)) (inst : String) (dest : Dest)
    (m s e : Nat) (k : Nat)
    (hl : ∀ kv ∈ docs, o.lookupFails kv.1 = false)
    (hp : ∀ kv ∈ docs, o.prepFails kv.1 = false)
    (hnd : (docs.map Prod.fst).Nodup)
    (hk : k = (docs.filter (fun kv => !presentIn dest kv)).length)
    (hpos : 0 < k) :
    (migrateInstance o docs inst dest m s e).formedBatches.length = (k + 449) / 450 ∧
    (∀ b ∈ (migrateInstance o docs inst dest m s e).formedBatches.dropLast, b.length = 450) ∧
    ((migrateInstance o docs inst dest m s e).formedBatches.getLastD []).length =
      (if k % 450 = 0 then 450 else k % 450) ∧
    ((migrateInstance o docs inst dest m s e).formedBatches.flatten.map Prod.fst).Nodup ∧
    (migrateInstance o docs inst dest m s e).formedBatches.flatten.map Prod.fst =
      (docs.filter (fun kv => !presentIn dest kv)).map Prod.fst := by
  have hq : (queuedRecs o dest inst docs).length = k := by
    rw [hk, queuedRecs_length_no_prep o dest inst docs hp]
  obtain ⟨hfl, hlen, hdrop, hlast⟩ := migrateInstance_batches_spec o docs inst dest m s e hl
  refine ⟨?_, hdrop, ?_, ?_, ?_⟩
  · rw [hlen, hq]
  · rw [hlast (by omega), hq]
  · rw [hfl]
    exact queuedRecs_keys_nodup o dest inst docs hnd
  · rw [hfl, queuedRecs_keys]
    congr 1
    apply List.filter_congr
    intro a ha
    simp [hp a ha]

/-- Witness for C4 (spec Scenario A): a partition of 460 records, all
    absent from the empty destination, yields 2 batches of sizes 450
    and 10. -/
theorem c4_batch_sizes_witness :
    (migrateInstance oGood docs460 "instance1" [] 0 0 0).formedBatches.length = 2 ∧
    (∀ b ∈ (migrateInstance oGood docs460 "instance1" [] 0 0 0).formedBatches.dropLast,
      b.length = 450) ∧
    ((migrateInstance oGood docs460 "instance1" [] 0 0 0).formedBatches.getLastD []).length = 10 := by
  have hnd : (docs460.map Prod.fst).Nodup := by
    rw [docs460_keys]
    exact List.nodup_range 460
  have habs : (460 : Nat) = (docs460.filter (fun kv => !presentIn [] kv)).length := by
    have hfe : docs460.filter (fun kv => !presentIn [] kv) = docs460 :=
      List.filter_eq_self.mpr (fun kv _ => rfl)
    rw [hfe]
    decide
  obtain ⟨h1, h2, h3, _, _⟩ := c4_batch_sizes oGood docs460 "instance1" [] 0 0 0 460
    (fun kv _ => rfl) (fun kv _ => rfl) hnd habs (by decide)
  refine ⟨?_, h2, ?_⟩
  · rw [h1]
  · rw [h3]
    decide

/-- Claim C5: after a first run in which nothing fails (every batch
    commit succeeds), running the engine a second time over the same
    partitions migrates nothing: every record is skipped (each partition
    of size S contributes exactly S skips), no error occurs, and the
    destination is left exactly as the first run left it. -/
theorem c5_idempotent_second_run (o : Oracles) (docs1 docs2 : List (Key × Nat)) (dest0 : Dest)
    (he : ∀ nm, o.enumFails nm = false)
    (hl : ∀ k, o.lookupFails k = false)
    (hp : ∀ k, o.prepFails k = false)
    (hc : ∀ nm j, o.commitFails nm j = false) :
    (migrateUsers o docs1 docs2 (migrateUsers o docs1 docs2 dest0).dest).migrated = 0 ∧
    (migrateUsers o docs1 docs2 (migrateUsers o docs1 docs2 dest0).dest).skipped =
      docs1.length + docs2.length ∧
    (migrateUsers o docs1 docs2 (migrateUsers o docs1 docs2 dest0).dest).errored = 0 ∧
    (migrateUsers o docs1 docs2 (migrateUsers o docs1 docs2 dest0).dest).dest =
      (migrateUsers o docs1 docs2 dest0).dest ∧
    (migrateUsers o docs1 docs2 (migrateUsers o docs1 docs2 dest0).dest).events1.countP
      isSkipEv = docs1.length ∧
    (migrateUsers o docs1 docs2 (migrateUsers o docs1 docs2 dest0).dest).events2.countP
      isSkipEv = docs2.length := by
  have hl1 : ∀ kv ∈ docs1, o.lookupFails kv.1 = false := fun kv _ => hl kv.1
  have hl2 : ∀ kv ∈ docs2, o.lookupFails kv.1 = false := fun kv _ => hl kv.1
  have hp1 : ∀ kv ∈ docs1, o.prepFails kv.1 = false := fun kv _ => hp kv.1
  have hp2 : ∀ kv ∈ docs2, o.prepFails kv.1 = false := fun kv _ => hp kv.1
  rw [migrateUsers_completed o docs1 docs2 dest0 he hl]
  dsimp only
  set r1 := migrateInstance o docs1 "instance1" dest0 0 0 0 with hr1
  set r2 := migrateInstance o docs2 "instance2" r1.dest r1.migrated r1.skipped r1.errored
    with hr2
  have hall1 : ∀ kv ∈ docs1, (lookupDest r2.dest kv.1).isSome = true := by
    intro kv hkv
    rw [hr2]
    apply migrateInstance_isSome_mono
    rw [hr1]
    exact migrateInstance_key_isSome o docs1 "instance1" dest0 0 0 0 kv.1 hl1 hp1
      (fun j => hc "instance1" j) (List.mem_map_of_mem _ hkv)
  have hall2 : ∀ kv ∈ docs2, (lookupDest r2.dest kv.1).isSome = true := by
    intro kv hkv
    rw [hr2]
    exact migrateInstance_key_isSome o docs2 "instance2" r1.dest _ _ _ kv.1 hl2 hp2
      (fun j => hc "instance2" j) (List.mem_map_of_mem _ hkv)
  rw [migrateUsers_completed o docs1 docs2 r2.dest he hl]
  dsimp only
  rw [migrateInstance_all_present o docs1 "instance1" r2.dest 0 0 0 hl1 hall1]
  dsimp only
  rw [migrateInstance_all_present o docs2 "instance2" r2.dest 0 (0 + docs1.length) 0 hl2 hall2]
  dsimp only
  refine ⟨rfl, by omega, rfl, rfl, ?_, ?_⟩
  · rw [eventsOf_countP_skip]
    simp [skippedOf, filter_present_eq_self _ _ hall1]
  · rw [eventsOf_countP_skip]
    simp [skippedOf, filter_present_eq_self _ _ hall2]

/-- Witness for C5 at a concrete input: one record per partition, empty
    initial destination, no failures. -/
theorem c5_idempotent_second_run_witness :
    (migrateUsers oGood [(1, 10)] [(2, 20)]
      (migrateUsers oGood [(1, 10)] [(2, 20)] []).dest).migrated = 0 ∧
    (migrateUsers oGood [(1, 10)] [(2, 20)]
      (migrateUsers oGood [(1, 10)] [(2, 20)] []).dest).skipped =
      [(1, 10)].length + [(2, 20)].length ∧
    (migrateUsers oGood [(1, 10)] [(2, 20)]
      (migrateUsers oGood [(1, 10)] [(2, 20)] []).dest).errored = 0 ∧
    (migrateUsers oGood [(1, 10)] [(2, 20)]
      (migrateUsers oGood [(1, 10)] [(2, 20)] []).dest).dest =
      (migrateUsers oGood [(1, 10)] [(2, 20)] []).dest ∧
    (migrateUsers oGood [(1, 10)] [(2, 20)]
      (migrateUsers oGood [(1, 10)] [(2, 20)] []).dest).events1.countP isSkipEv =
      [(1, 10)].length ∧
    (migrateUsers oGood [(1, 10)] [(2, 20)]
      (migrateUsers oGood [(1, 10)] [(2, 20)] []).dest).events2.countP isSkipEv =
      [(2, 20)].length :=
  c5_idempotent_second_run oGood [(1, 10)] [(2, 20)] []
    (fun _ => rfl) (fun _ => rfl) (fun _ => rfl) (fun _ _ => rfl)

theorem docs450_keys : docs450.map Prod.fst = List.range 450 := by
  rw [docs450, List.map_map]
  exact (List.map_congr_left fun a _ => rfl).trans (List.map_id _)

/-- Claim C3 evaluated at its failing input: a partition of 450 records
    all absent from the empty destination, with every commit
    succeeding.  All 450 records are written (key 0 is present
    afterwards), yet the counters report migrated = skipped =
    errored = 0, so migrated + skipped + errored is 0, not the partition
    size 450: the commit loop adds operationCount for the last batch,
    and operationCount is 0 when the queued count is an exact multiple
    of the 450 batch size. -/
theorem c3_accounting_failure_eval :
    (migrateUsers oGood docs450 [] []).migrated = 0 ∧
    (migrateUsers oGood docs450 [] []).skipped = 0 ∧
    (migrateUsers oGood docs450 [] []).errored = 0 ∧
    docs450.length = 450 ∧
    (lookupDest (migrateUsers oGood docs450 [] []).dest 0).isSome = true := by
  have hq : (queuedRecs oGood [] "instance1" docs450).length = 450 := by decide
  rw [migrateUsers_completed oGood docs450 [] [] (fun _ => rfl) (fun _ => rfl)]
  dsimp only
  rw [migrateInstance_nil]
  dsimp only
  refine ⟨?_, ?_, ?_, by decide, ?_⟩
  · rw [migrateInstance_migrated_eq oGood docs450 "instance1" [] 0 0 0
      (fun kv _ => rfl) (fun j => rfl), hq]
    decide
  · rw [migrateInstance_skipped oGood docs450 "instance1" [] 0 0 0 (fun kv _ => rfl)]
    decide
  · rw [migrateInstance_errored_success oGood docs450 "instance1" [] 0 0 0
      (fun kv _ => rfl) (fun j => rfl)]
    decide
  · exact migrateInstance_key_isSome oGood docs450 "instance1" [] 0 0 0 0
      (fun kv _ => rfl) (fun kv _ => rfl) (fun j => rfl) (by decide)

/-- Claim C6 evaluated at its failing input: instance1 holds 450 absent
    records forming a single exactly-full batch whose commit fails.
    The claim requires the batch's full size 450 to be added to the
    errored count; instead errored stays 0 (operationCount is 0 for an
    exactly-full final batch).  The parts of the claim that do hold are
    visible too: nothing of the failed batch is written (key 0 absent),
    no retry happens, and the run continues — instance2's record 500 is
    still migrated and the run completes. -/
theorem c6_commit_failure_eval :
    (migrateUsers oCommitFail1 docs450 [(500, 1)] []).errored = 0 ∧
    (migrateUsers oCommitFail1 docs450 [(500, 1)] []).migrated = 1 ∧
    (migrateUsers oCommitFail1 docs450 [(500, 1)] []).completed = true ∧
    (migrateUsers oCommitFail1 docs450 [(500, 1)] []).formedBatches1.length = 1 ∧
    (∀ b ∈ (migrateUsers oCommitFail1 docs450 [(500, 1)] []).formedBatches1,
      b.length = 450) ∧
    (lookupDest (migrateUsers oCommitFail1 docs450 [(500, 1)] []).dest 500).isSome = true ∧
    lookupDest (migrateUsers oCommitFail1 docs450 [(500, 1)] []).dest 0 = none := by
  have hl1 : ∀ kv ∈ docs450, oCommitFail1.lookupFails kv.1 = false := fun kv _ => rfl
  have hcf1 : ∀ j, oCommitFail1.commitFails "instance1" j = true := fun j => rfl
  have hq1 : (queuedRecs oCommitFail1 [] "instance1" docs450).length = 450 := by decide
  obtain ⟨herr1, hmig1, hdest1⟩ :=
    migrateInstance_errored_failure oCommitFail1 docs450 "instance1" [] 0 0 0 hl1 hcf1
  have herr1z : (migrateInstance oCommitFail1 docs450 "instance1" [] 0 0 0).errored = 0 := by
    rw [herr1, hq1]
    decide
  have hskip1 : (migrateInstance oCommitFail1 docs450 "instance1" [] 0 0 0).skipped = 0 := by
    rw [migrateInstance_skipped oCommitFail1 docs450 "instance1" [] 0 0 0 hl1]
    decide
  have hbs := migrateInstance_batches_spec oCommitFail1 docs450 "instance1" [] 0 0 0 hl1
  have hlen1 : (migrateInstance oCommitFail1 docs450 "instance1" [] 0 0 0).formedBatches.length = 1 := by
    rw [hbs.2.1, hq1]
  rw [migrateUsers_completed oCommitFail1 docs450 [(500, 1)] [] (fun _ => rfl) (fun _ => rfl)]
  dsimp only
  rw [hdest1, hmig1, hskip1, herr1z]
  refine ⟨by decide, by decide, rfl, hlen1, ?_, by decide, by decide⟩
  intro b hb
  obtain ⟨b0, hb0⟩ := List.length_eq_one.mp hlen1
  rw [hb0] at hb
  rcases List.mem_singleton.mp hb with rfl
  have hflat := hbs.1
  rw [hb0] at hflat
  simp only [List.flatten_cons, List.flatten_nil, List.append_nil] at hflat
  rw [hflat, hq1]

/-- Counterexample to C8 as stated: after migrating 450 absent records
    (all written, so re-enumerating the destination tallies 450 records
    under the instance1 tag) the migrated counter reads 0 and the
    pre-existing count for that tag was 0, a discrepancy of 450 between
    the tally and migrated + pre-existing; the claim demands it be
    reported as a warning, but the run's only warning condition —
    errorCount > 0 at line 153 — is false: no comparison of the tally
    against migrated + pre-existing exists in the code. -/
theorem c8_counterexample :
    tallyCount (migrateUsers oGood docs450 [] []).tally "instance1" = 450 ∧
    (migrateUsers oGood docs450 [] []).migrated = 0 ∧
    countTag [] "instance1" = 0 ∧
    (migrateUsers oGood docs450 [] []).errorWarning = false := by
  have hl1 : ∀ kv ∈ docs450, oGood.lookupFails kv.1 = false := fun kv _ => rfl
  have hnd : (docs450.map Prod.fst).Nodup := by
    rw [docs450_keys]
    exact List.nodup_range 450
  have hq : (queuedRecs oGood [] "instance1" docs450).length = 450 := by decide
  have hdest1 : (migrateInstance oGood docs450 "instance1" [] 0 0 0).dest =
      queuedRecs oGood [] "instance1" docs450 := by
    rw [migrateInstance_dest_success oGood docs450 "instance1" [] 0 0 0 hl1
      (fun j => rfl) hnd]
    rfl
  have hmig1 : (migrateInstance oGood docs450 "instance1" [] 0 0 0).migrated = 0 := by
    rw [migrateInstance_migrated_eq oGood docs450 "instance1" [] 0 0 0 hl1 (fun j => rfl), hq]
    decide
  have herr1 : (migrateInstance oGood docs450 "instance1" [] 0 0 0).errored = 0 := by
    rw [migrateInstance_errored_success oGood docs450 "instance1" [] 0 0 0 hl1 (fun j => rfl)]
    decide
  rw [migrateUsers_completed oGood docs450 [] [] (fun _ => rfl) (fun _ => rfl)]
  dsimp only
  rw [migrateInstance_nil]
  dsimp only
  rw [hdest1, hmig1, herr1]
  refine ⟨?_, rfl, rfl, rfl⟩
  rw [computeTally_count _ _ (by decide), queuedRecs_countTag, hq]

/-- Claim C8 (amended): after the partitions are processed the run
    re-enumerates the destination and groups its records by the
    instance tag, reporting the per-tag tallies; for a failure-free run
    the instance1 tally equals the pre-existing instance1-tagged count
    plus the number of records actually written for that partition.  No
    comparison of the tally against the migrated counter is performed,
    and the only warning is the errorCount > 0 warning, which stays
    off. -/
theorem c8_verification_tally (o : Oracles) (docs1 : List (Key × Nat)) (dest0 : Dest)
    (he : ∀ nm, o.enumFails nm = false)
    (hl : ∀ k, o.lookupFails k = false)
    (hp : ∀ k, o.prepFails k = false)
    (hc : ∀ nm j, o.commitFails nm j = false)
    (hnd1 : (docs1.map Prod.fst).Nodup) :
    (migrateUsers o docs1 [] dest0).completed = true ∧
    tallyCount (migrateUsers o docs1 [] dest0).tally "instance1" =
      countTag dest0 "instance1" + (queuedRecs o dest0 "instance1" docs1).length ∧
    (migrateUsers o docs1 [] dest0).errorWarning = false := by
  have hl1 : ∀ kv ∈ docs1, o.lookupFails kv.1 = false := fun kv _ => hl kv.1
  have hp1 : ∀ kv ∈ docs1, o.prepFails kv.1 = false := fun kv _ => hp kv.1
  have hdest1 := migrateInstance_dest_success o docs1 "instance1" dest0 0 0 0 hl1
    (fun j => hc "instance1" j) hnd1
  have herr1 : (migrateInstance o docs1 "instance1" dest0 0 0 0).errored = 0 := by
    rw [migrateInstance_errored_success o docs1 "instance1" dest0 0 0 0 hl1
      (fun j => hc "instance1" j), prepErrsOf_no_prep o dest0 docs1 hp1]
  rw [migrateUsers_completed o docs1 [] dest0 he hl]
  dsimp only
  rw [migrateInstance_nil]
  dsimp only
  rw [hdest1, herr1]
  refine ⟨rfl, ?_, rfl⟩
  rw [computeTally_count _ _ (by decide), countTag_append, queuedRecs_countTag]

/-- Witness for the amended C8: one absent source record and one
    pre-existing instance1-tagged destination record give a tally of 2
    for instance1, with no warning. -/
theorem c8_verification_tally_witness :
    (migrateUsers oGood [(1, 10)] [] [(5, ⟨9, some "instance1", true⟩)]).completed = true ∧
    tallyCount (migrateUsers oGood [(1, 10)] [] [(5, ⟨9, some "instance1", true⟩)]).tally
      "instance1" =
      countTag [(5, ⟨9, some "instance1", true⟩)] "instance1" +
        (queuedRecs oGood [(5, ⟨9, some "instance1", true⟩)] "instance1" [(1, 10)]).length ∧
    (migrateUsers oGood [(1, 10)] [] [(5, ⟨9, some "instance1", true⟩)]).errorWarning = false :=
  c8_verification_tally oGood [(1, 10)] [(5, ⟨9, some "instance1", true⟩)]
    (fun _ => rfl) (fun _ => rfl) (fun _ => rfl) (fun _ _ => rfl) (by decide)

/-- Claim C9 (amended): within one partition every existence check and
    queueing happens before any batch commit: batches are accumulated in
    an array and committed only after the record loop has exhausted the
    partition, so the event trace is the record-loop events (none of
    which is a commit) followed by one commit event per formed batch. -/
theorem c9_checks_precede_commits (o : Oracles) (docs : List (Key × Nat)) (inst : String)
    (dest : Dest) (m s e : Nat)
    (hl : ∀ kv ∈ docs, o.lookupFails kv.1 = false) :
    (migrateInstance o docs inst dest m s e).events =
      eventsOf o dest docs ++
        (List.range (migrateInstance o docs inst dest m s e).formedBatches.length).map
          MigEvent.commit ∧
    (∀ ev ∈ eventsOf o dest docs, isCommitEv ev = false) ∧
    (∀ ev ∈ (List.range (migrateInstance o docs inst dest m s e).formedBatches.length).map
        MigEvent.commit, isCommitEv ev = true) := by
  refine ⟨migrateInstance_events o docs inst dest m s e hl,
    eventsOf_no_commit o dest docs, ?_⟩
  intro ev hev
  obtain ⟨j, hj, hje⟩ := List.mem_map.mp hev
  subst hje
  rfl

/-- Witness for the amended C9 at a concrete two-record partition. -/
theorem c9_checks_precede_commits_witness :
    (migrateInstance oGood [(1, 10), (2, 20)] "instance1" [] 0 0 0).events =
      eventsOf oGood [] [(1, 10), (2, 20)] ++
        (List.range (migrateInstance oGood [(1, 10), (2, 20)] "instance1"
          [] 0 0 0).formedBatches.length).map MigEvent.commit ∧
    (∀ ev ∈ eventsOf oGood [] [(1, 10), (2, 20)], isCommitEv ev = false) ∧
    (∀ ev ∈ (List.range (migrateInstance oGood [(1, 10), (2, 20)] "instance1"
        [] 0 0 0).formedBatches.length).map MigEvent.commit, isCommitEv ev = true) :=
  c9_checks_precede_commits oGood [(1, 10), (2, 20)] "instance1" [] 0 0 0
    (fun kv _ => rfl)

/-- Counterexample to C9 as stated: with 451 absent records the first
    batch is full after record 450, and the claim requires its commit to
    occur before the check of the 451st record (key 450); in the actual
    event trace the check of key 450 precedes the commit of batch 0. -/
theorem c9_counterexample :
    (migrateInstance oGood docs451 "instance1" [] 0 0 0).events.indexOf
        (MigEvent.check 450) <
      (migrateInstance oGood docs451 "instance1" [] 0 0 0).events.indexOf
        (MigEvent.commit 0) := by
  rw [migrateInstance_events oGood docs451 "instance1" [] 0 0 0 (fun kv _ => rfl)]
  have hmem : MigEvent.check 450 ∈ eventsOf oGood [] docs451 := by decide
  have hnmem : MigEvent.commit 0 ∉ eventsOf oGood [] docs451 := by
    intro h
    have h2 := eventsOf_no_commit oGood [] docs451 _ h
    simp [isCommitEv] at h2
  rw [List.indexOf_append_of_mem hmem, List.indexOf_append_of_not_mem hnmem]
  have h1 := List.indexOf_lt_length.mpr hmem
  omega

/-- Counterexample to C10 as stated: key 0 appears in both partitions
    (payloads 0 and 99) and is absent from the empty destination; every
    commit succeeds.  The key is written exactly once, tagged
    instance1, and partition 2 skips it — but the claim also says it is
    counted migrated for the first partition, while the run reports
    migrated = 0: partition 1's 450 queued records form one exactly-full
    batch whose contribution is the residual operationCount 0. -/
theorem c10_counterexample :
    lookupDest (migrateUsers oGood docs450 [(0, 99)] []).dest 0 =
      some { payload := 0, instanceField := some "instance1", migratedAt := true } ∧
    (migrateUsers oGood docs450 [(0, 99)] []).skipped = 1 ∧
    (migrateUsers oGood docs450 [(0, 99)] []).migrated = 0 := by
  have hl1 : ∀ kv ∈ docs450, oGood.lookupFails kv.1 = false := fun kv _ => rfl
  have hnd : (docs450.map Prod.fst).Nodup := by
    rw [docs450_keys]
    exact List.nodup_range 450
  have hq : (queuedRecs oGood [] "instance1" docs450).length = 450 := by decide
  have hdest1 : (migrateInstance oGood docs450 "instance1" [] 0 0 0).dest =
      queuedRecs oGood [] "instance1" docs450 := by
    rw [migrateInstance_dest_success oGood docs450 "instance1" [] 0 0 0 hl1
      (fun j => rfl) hnd]
    rfl
  have hmig1 : (migrateInstance oGood docs450 "instance1" [] 0 0 0).migrated = 0 := by
    rw [migrateInstance_migrated_eq oGood docs450 "instance1" [] 0 0 0 hl1 (fun j => rfl), hq]
    decide
  have hskip1 : (migrateInstance oGood docs450 "instance1" [] 0 0 0).skipped = 0 := by
    rw [migrateInstance_skipped oGood docs450 "instance1" [] 0 0 0 hl1]
    decide
  have herr1 : (migrateInstance oGood docs450 "instance1" [] 0 0 0).errored = 0 := by
    rw [migrateInstance_errored_success oGood docs450 "instance1" [] 0 0 0 hl1 (fun j => rfl)]
    decide
  rw [migrateUsers_completed oGood docs450 [(0, 99)] [] (fun _ => rfl) (fun _ => rfl)]
  dsimp only
  rw [hdest1, hmig1, hskip1, herr1]
  have hall2 : ∀ kv ∈ [((0 : Key), (99 : Nat))],
      (lookupDest (queuedRecs oGood [] "instance1" docs450) kv.1).isSome = true := by decide
  rw [migrateInstance_all_present oGood [(0, 99)] "instance2"
    (queuedRecs oGood [] "instance1" docs450) 0 0 0 (fun kv _ => rfl) hall2]
  dsimp only
  refine ⟨by decide, by decide, rfl⟩

/-- Claim C10 (amended): a key present in both partitions and absent
    from the destination before a failure-free run is written exactly
    once, carrying the instance1 tag and the first partition's payload;
    every occurrence of the key in partition 2 is skipped; and the key
    is counted migrated for the first partition — its migrated counter
    equals the full queued count — provided that queued count is not a
    positive multiple of 450 (the counting slip of line 122 zeroes the
    contribution of an exactly full final batch). -/
theorem c10_cross_partition_dedup (o : Oracles) (docs1 docs2 : List (Key × Nat)) (dest0 : Dest)
    (k : Key) (p1 : Nat)
    (he : ∀ nm, o.enumFails nm = false)
    (hl : ∀ k2, o.lookupFails k2 = false)
    (hp : ∀ k2, o.prepFails k2 = false)
    (hc : ∀ nm j, o.commitFails nm j = false)
    (hnd1 : (docs1.map Prod.fst).Nodup)
    (hm1 : (k, p1) ∈ docs1)
    (habs : lookupDest dest0 k = none) :
    lookupDest (migrateUsers o docs1 docs2 dest0).dest k =
      some { payload := p1, instanceField := some "instance1", migratedAt := true } ∧
    (migrateUsers o docs1 docs2 dest0).events2.count (MigEvent.skip k) =
      (docs2.map Prod.fst).count k ∧
    ((queuedRecs o dest0 "instance1" docs1).length % 450 ≠ 0 →
      (migrateInstance o docs1 "instance1" dest0 0 0 0).migrated =
        (queuedRecs o dest0 "instance1" docs1).length ∧
      0 < (queuedRecs o dest0 "instance1" docs1).length) := by
  have hl1 : ∀ kv ∈ docs1, o.lookupFails kv.1 = false := fun kv _ => hl kv.1
  have hl2 : ∀ kv ∈ docs2, o.lookupFails kv.1 = false := fun kv _ => hl kv.1
  have hqm : (k, { payload := p1, instanceField := some "instance1", migratedAt := true }) ∈
      queuedRecs o dest0 "instance1" docs1 :=
    queuedRecs_key_mem o dest0 "instance1" docs1 k p1 hm1 habs (hp k)
  have hdest1 := migrateInstance_dest_success o docs1 "instance1" dest0 0 0 0 hl1
    (fun j => hc "instance1" j) hnd1
  have hlook1 : lookupDest (migrateInstance o docs1 "instance1" dest0 0 0 0).dest k =
      some { payload := p1, instanceField := some "instance1", migratedAt := true } := by
    rw [hdest1, lookupDest_append_of_none _ _ _ habs]
    exact lookupDest_mem_nodup _ _ _ hqm
      (queuedRecs_keys_nodup o dest0 "instance1" docs1 hnd1)
  rw [migrateUsers_completed o docs1 docs2 dest0 he hl]
  dsimp only
  refine ⟨migrateInstance_preserve o docs2 "instance2" _ _ _ _ k _ hlook1, ?_, ?_⟩
  · rw [migrateInstance_events o docs2 "instance2" _ _ _ _ hl2]
    rw [List.count_append, eventsOf_count_skip o _ docs2 k (by rw [hlook1]; rfl),
      count_skip_commits]
    omega
  · intro h450
    refine ⟨?_, List.length_pos.mpr (List.ne_nil_of_mem hqm)⟩
    rw [migrateInstance_migrated_success o docs1 "instance1" dest0 0 0 0 hl1
      (fun j => hc "instance1" j) h450]
    omega

/-- Witness for the amended C10: key 1 appears in both partitions,
    absent from the empty destination; partition 1 queues 2 records
    (not a multiple of 450), so key 1 is written once with the
    instance1 tag and payload 10, skipped once in partition 2, and
    partition 1's migrated counter equals its queued count 2. -/
theorem c10_cross_partition_dedup_witness :
    lookupDest (migrateUsers oGood [(1, 10), (2, 20)] [(5, 7), (1, 3)] []).dest 1 =
      some { payload := 10, instanceField := some "instance1", migratedAt := true } ∧
    (migrateUsers oGood [(1, 10), (2, 20)] [(5, 7), (1, 3)] []).events2.count
      (MigEvent.skip 1) = ([(5, 7), (1, 3)].map Prod.fst).count 1 ∧
    ((queuedRecs oGood [] "instance1" [(1, 10), (2, 20)]).length % 450 ≠ 0 →
      (migrateInstance oGood [(1, 10), (2, 20)] "instance1" [] 0 0 0).migrated =
        (queuedRecs oGood [] "instance1" [(1, 10), (2, 20)]).length ∧
      0 < (queuedRecs oGood [] "instance1" [(1, 10), (2, 20)]).length) :=
  c10_cross_partition_dedup oGood [(1, 10), (2, 20)] [(5, 7), (1, 3)] [] 1 10
    (fun _ => rfl) (fun _ => rfl) (fun _ => rfl) (fun _ _ => rfl) (by decide) (by decide)
    (by decide)
